import Mathlib

/-!
# A shallow embedding of the `getReadableText` extractor (src/readable.ts)

This file models the readable-text extraction algorithm of `src/readable.ts`:
a single synchronous pass that converts a rendered document tree into a
compact plain-text representation, with item/line budgets, duplicate-line
suppression, a link registry, filter-group summarisation, a shell pass and a
low-yield fallback pass.

Modelling conventions:
* The host document is an explicit tree (`Node`).  Host-computed per-node
  data (rendered `innerText`, resolved `currentSrc`, computed
  display/visibility) are fields of the tree, as the host contract supplies
  them.  Element identity (`Set`/`contains` in JS) is modelled by a numeric
  `nid` field.
* JS strings are modelled as `String` processed as `List Char`; `length` is
  the character count (all concrete inputs are within the basic plane, where
  this agrees with JS UTF-16 lengths).  `toLowerCase` is modelled by
  `Char.toLower` (ASCII; all concrete inputs are ASCII).
* Regular expressions of the source are translated into direct scanning
  functions with the same matching semantics, one per regex.
* JS `Infinity` defaults (`maxItems`, `maxListItems`, `maxLineLength`) are
  `Option Nat` with `none` for "unbounded"; numeric option inputs are `Int`
  and are clamped exactly as the source clamps them.
* The recursive DOM walk bounds its own recursion depth by the resolved
  `maxDepth` (`if (depth > maxDepth) return`), which we exploit: the walk
  recurses structurally on the remaining gas `maxDepth + 1 - depth`.  Pure
  tree recursions (text content, descendant lists) use `sizeOf` fuel, which
  strictly dominates tree height, so the fuel-exhaustion branch is
  unreachable; it exists only to make the recursion structural.
* The floating-point ratio test `shortRatio < 0.7` is modelled as the exact
  rational comparison `10 * shortCount < 7 * max len 1`.
-/

namespace Readable

/-! ## JS string primitives -/

/-- The whitespace class of JS `\s` (restricted to the characters that can
actually occur in our `String` model; includes NBSP and the ASCII space
family). -/
def jsIsWs (c : Char) : Bool :=
  c == ' ' || c == '\t' || c == '\n' || c == '\r' || c == '\x0b' ||
  c == '\x0c' || c == ' '

/-- Source: `\w` word characters: `[A-Za-z0-9_]`. -/
def isWordChar (c : Char) : Bool :=
  c.isAlpha || c.isDigit || c == '_'

/-- Drop leading JS whitespace (JS `trimStart`). -/
def jsTrimLeftL (cs : List Char) : List Char := cs.dropWhile jsIsWs

/-- Drop trailing JS whitespace (JS `trimEnd`). -/
def jsTrimRightL (cs : List Char) : List Char :=
  (cs.reverse.dropWhile jsIsWs).reverse

/-- JS `trim` on a character list. -/
def jsTrimL (cs : List Char) : List Char := jsTrimRightL (jsTrimLeftL cs)

/-- JS `String.prototype.trim`. -/
def jsTrim (s : String) : String := String.mk (jsTrimL s.toList)

/-- JS `String.prototype.trimEnd`. -/
def jsTrimEnd (s : String) : String := String.mk (jsTrimRightL s.toList)

/-- String length in characters (JS `.length`; code-unit count coincides for
basic-plane text). -/
def slen (s : String) : Nat := s.toList.length

/-- Source: `pre` is a prefix of `s` (JS `String.prototype.startsWith`). -/
def strStartsWith (s pre : String) : Bool :=
  pre.toList.isPrefixOf s.toList

/-- Lowercase a string (JS `toLowerCase`, ASCII range). -/
def strLower (s : String) : String := String.mk (s.toList.map Char.toLower)

/-- Substring search on lists: does `cs` contain `pat`? -/
def containsL (pat : List Char) : List Char → Bool
  | [] => pat.isEmpty
  | c :: cs => pat.isPrefixOf (c :: cs) || containsL pat cs

/-- JS `String.prototype.includes`. -/
def strContains (s pat : String) : Bool := containsL pat.toList s.toList

/-- Collapse every maximal run of `\s` characters into a single space
(the `replace(/\s+/g, ' ')` of `normalize` and `fingerprintLine`).
The boolean records whether the previous character belonged to a run. -/
def collapseWsAux : Bool → List Char → List Char
  | _, [] => []
  | prevWs, c :: cs =>
    if jsIsWs c then
      if prevWs then collapseWsAux true cs
      else ' ' :: collapseWsAux true cs
    else c :: collapseWsAux false cs

/-- Source: `replace(/\s+/g, ' ')`. -/
def collapseWsL (cs : List Char) : List Char := collapseWsAux false cs

/-- Try each suffix of the input (regex search at every position). -/
def anyPosition (p : List Char → Bool) : List Char → Bool
  | [] => p []
  | c :: cs => p (c :: cs) || anyPosition p cs

/-- Like `anyPosition` but the matcher also sees the character preceding the
position (for `\b` look-behind). -/
def anyPositionPrev (p : Option Char → List Char → Bool) :
    Option Char → List Char → Bool
  | prev, [] => p prev []
  | prev, c :: cs => p prev (c :: cs) || anyPositionPrev p (some c) cs

/-- Match of `/[.#][\w-]+\s*\{[^}]*\}/` anchored at the current position. -/
def cssRuleFrom : List Char → Bool
  | [] => false
  | c :: rest =>
    if c == '.' || c == '#' then
      let seg := rest.takeWhile (fun x => isWordChar x || x == '-')
      if seg.isEmpty then false
      else
        match (rest.drop seg.length).dropWhile jsIsWs with
        | '{' :: rest3 =>
          match rest3.dropWhile (fun x => x != '}') with
          | '}' :: _ => true
          | _ => false
        | _ => false
    else false

/-- Match of `/(fill|stroke|opacity|clip-path|stroke-width)\s*:/i` anchored at
the current position. -/
def cssPropFrom (cs : List Char) : Bool :=
  let low := cs.map Char.toLower
  ["fill", "stroke", "opacity", "clip-path", "stroke-width"].any fun w =>
    let wl := w.toList
    wl.isPrefixOf low &&
      (match (cs.drop wl.length).dropWhile jsIsWs with
       | ':' :: _ => true
       | _ => false)

/-- Source: `looksLikeCss` of the source. -/
def looksLikeCss (s : String) : Bool :=
  let cs := s.toList
  if !(cs.contains '{' && cs.contains '}') then false
  else if anyPosition cssRuleFrom cs then true
  else if anyPosition cssPropFrom cs then true
  else false

/-- Match of `\bW\b` for one of the given words, using the look-behind
character for the left boundary. -/
def wordAt (words : List String) (prev : Option Char) (cs : List Char) : Bool :=
  (match prev with
   | some c => !isWordChar c
   | none => true) &&
  words.any fun w =>
    let wl := w.toList
    wl.isPrefixOf cs &&
      (match cs.drop wl.length with
       | [] => true
       | c :: _ => !isWordChar c)

/-- Source: `/\b(const|let|var|function)\b/`. -/
def hasKeyword (s : List Char) : Bool :=
  anyPositionPrev (wordAt ["const", "let", "var", "function"]) none s

/-- Source: `/\b(document|window|this)\./`: a word boundary, one of the words, then a
literal dot. -/
def hasGlobalRef (s : List Char) : Bool :=
  anyPositionPrev
    (fun prev cs =>
      (match prev with
       | some c => !isWordChar c
       | none => true) &&
      ["document", "window", "this"].any fun w =>
        let wl := w.toList
        wl.isPrefixOf cs &&
          (match cs.drop wl.length with
           | '.' :: _ => true
           | _ => false))
    none s

/-- Source: `/[;{}]\s*$/`: the last non-whitespace character is `;`, `{` or `}`. -/
def endsCodeChar (cs : List Char) : Bool :=
  match (jsTrimRightL cs).getLast? with
  | some c => c == ';' || c == '{' || c == '}'
  | none => false

/-- Source: `looksLikeCode` of the source. -/
def looksLikeCode (s : String) : Bool :=
  let cs := s.toList
  if looksLikeCss s then true
  else if strStartsWith s "//" then true
  else if strStartsWith s "/*" then true
  else if hasKeyword cs then true
  else if endsCodeChar cs then true
  else if hasGlobalRef cs then true
  else if containsL ['=', '>'] cs then true
  else false

/-- Source: `normalize` of the source: NBSP to space, collapse whitespace runs, trim. -/
def normalize (s : String) : String :=
  String.mk (jsTrimL (collapseWsL
    (s.toList.map fun c => if c == ' ' then ' ' else c)))

/-- Source: `cleanText` of the source: normalise; reject empties, bullet-only text
and code-looking text. -/
def cleanText (s : String) : String :=
  let cleaned := normalize s
  if cleaned = "" then ""
  else if
      jsTrim (String.mk (cleaned.toList.filter fun c =>
        !(c == '•' || c == '·'))) = "" then ""
  else if looksLikeCode cleaned then ""
  else cleaned

/-- Global replacement of `/(?:\s*•\s*){2,}/` by `' • '`: any maximal run of
whitespace/bullet characters containing at least two bullets collapses.  The
first argument buffers the current run in reverse. -/
def bulletRunsAux : List Char → List Char → List Char
  | buf, [] =>
    if buf.count '•' ≥ 2 then [' ', '•', ' '] else buf.reverse
  | buf, c :: cs =>
    if jsIsWs c || c == '•' then bulletRunsAux (c :: buf) cs
    else
      (if buf.count '•' ≥ 2 then [' ', '•', ' '] else buf.reverse) ++
        c :: bulletRunsAux [] cs

/-- Source: `/^\s*•\s*/`: strip one leading bullet unit, if present. -/
def stripLeadBullet (cs : List Char) : List Char :=
  match cs.dropWhile jsIsWs with
  | '•' :: r => r.dropWhile jsIsWs
  | _ => cs

/-- Source: `/\s*•\s*$/`: strip one trailing bullet unit, if present. -/
def stripTrailBullet (cs : List Char) : List Char :=
  match cs.reverse.dropWhile jsIsWs with
  | '•' :: r => (r.dropWhile jsIsWs).reverse
  | _ => cs

/-- Source: `normalizeBullets` of the source. -/
def normalizeBullets (s : String) : String :=
  String.mk (jsTrimL (stripTrailBullet (stripLeadBullet
    (bulletRunsAux [] s.toList))))

/-- One global pass of `replace(/updated\s+[^•]+/g, 'updated')`.  After a
literal `updated`, the greedy `\s+[^•]+` consumes the maximal bullet-free
prefix provided it starts with whitespace and has length at least two.  The
fuel starts at the list length; every step consumes at least one character,
so the fuel never runs out. -/
def replaceUpdatedF : Nat → List Char → List Char
  | 0, cs => cs
  | _ + 1, [] => []
  | f + 1, c :: cs =>
    if "updated".toList.isPrefixOf (c :: cs) then
      let after := (c :: cs).drop 7
      let p := after.takeWhile (fun x => x != '•')
      if (match p with
          | a :: _ :: _ => jsIsWs a
          | _ => false) then
        "updated".toList ++ replaceUpdatedF f (after.drop p.length)
      else c :: replaceUpdatedF f cs
    else c :: replaceUpdatedF f cs

/-- Source: `fingerprintLine` of the source: lowercase, collapse whitespace, drop an
`updated …` clause, strip bullet glyphs, trim. -/
def fingerprintLine (s : String) : String :=
  let lowered := collapseWsL (s.toList.map Char.toLower)
  let replaced := replaceUpdatedF lowered.length lowered
  String.mk (jsTrimL (replaced.filter fun c => !(c == '•' || c == '·')))

/-- Source: `'  '.repeat(n)` and friends. -/
def repeatStr (s : String) (n : Nat) : String :=
  String.join (List.replicate n s)

/-- Source: `decorateLine` of the source: splice a link reference after a leading
`"- "` or heading prefix, else prepend it. -/
def decorateLine (line : String) (linkRef : Option String) : String :=
  match linkRef with
  | none => line
  | some ref =>
    if strStartsWith line "- " then
      "- " ++ ref ++ " " ++ String.mk (line.toList.drop 2)
    else if strStartsWith line "#" then
      let cs := line.toList
      let hashes := cs.takeWhile (· == '#')
      let wsp := (cs.drop hashes.length).takeWhile jsIsWs
      let plen := hashes.length + wsp.length
      String.mk (cs.take plen) ++ ref ++ " " ++ String.mk (cs.drop plen)
    else ref ++ " " ++ line

/-- Source: `trimLine` of the source: with a finite limit `m`, text longer than `m`
is cut to `m - 1` characters, right-trimmed, and an ellipsis is appended. -/
def trimLine : Option Nat → String → String
  | none, text => text
  | some m, text =>
    if slen text ≤ m then text
    else String.mk (jsTrimRightL (text.toList.take (m - 1))) ++ "…"

/-- Digit-run count of `(text.match(/\d+/g) || []).length`. -/
def countDigitRuns (cs : List Char) : Nat :=
  (cs.foldl
    (fun (st : Bool × Nat) c =>
      if c.isDigit then (true, if st.1 then st.2 else st.2 + 1)
      else (false, st.2))
    (false, 0)).2

mutual
/-- Split on runs of characters satisfying `sepP` (JS `split(/X+/)`),
main state: accumulating the current chunk in reverse. -/
def splitRunsAux (sepP : Char → Bool) : List Char → List Char → List (List Char)
  | cur, [] => [cur.reverse]
  | cur, c :: cs =>
    if sepP c then cur.reverse :: splitRunsSkip sepP cs
    else splitRunsAux sepP (c :: cur) cs
/-- Split on runs: state inside a separator run. -/
def splitRunsSkip (sepP : Char → Bool) : List Char → List (List Char)
  | [] => [[]]
  | c :: cs =>
    if sepP c then splitRunsSkip sepP cs
    else splitRunsAux sepP [c] cs
end

/-- JS `split(/\n+/)`. -/
def splitNewlineRuns (s : String) : List String :=
  (splitRunsAux (fun c => c == '\n') [] s.toList).map String.mk

/-- Token count of JS `text.split(/\s+/).length`. -/
def countWsTokens (s : String) : Nat :=
  (splitRunsAux jsIsWs [] s.toList).length

/-- Parse a nonempty all-digit string (the `Number(...)` coercions of the
source applied to the decimal strings that actually occur). -/
def digitsToNat (cs : List Char) : Nat :=
  cs.foldl (fun a c => a * 10 + (c.toNat - 48)) 0

/-- Source: `Option`-valued decimal parse. -/
def parseNatDigits (s : String) : Option Nat :=
  let cs := s.toList
  if cs ≠ [] && cs.all Char.isDigit then some (digitsToNat cs) else none

/-! ## The document tree

A `Node` is either a text node or an element.  Element fields model the
host-supplied data of the contract: `tag` (already lowercased, as the source
always lowercases `tagName`), attribute list (`getAttribute`), `className`,
rendered `innerText`, resolved `currentSrc`, and the computed-style bits
consulted by `isHidden`.  `nid` models JS object identity (used by the
source's `Set#has` / `Node#contains`).  Children are a mutually inductive
`NodeList`, so all tree recursions are structural. -/
mutual
inductive Node where
  | textN (content : String)
  | elemN (nid : Nat) (tag : String) (attrs : List (String × String))
      (className : String) (innerText : String) (currentSrc : String)
      (dispNone : Bool) (visHidden : Bool) (children : NodeList)
inductive NodeList where
  | nil
  | cons (hd : Node) (tl : NodeList)
end

/-- Convert a `NodeList` to a `List`. -/
def NodeList.toList : NodeList → List Node
  | .nil => []
  | .cons n tl => n :: tl.toList

/-- Build a `NodeList` from a `List` (for writing concrete documents). -/
def nlist : List Node → NodeList
  | [] => .nil
  | n :: tl => .cons n (nlist tl)

/-- Is this an element node (`nodeType === 1`)? -/
def Node.isElem : Node → Bool
  | .textN _ => false
  | .elemN .. => true

/-- Element identity. -/
def Node.nid : Node → Nat
  | .textN _ => 0
  | .elemN i _ _ _ _ _ _ _ _ => i

/-- Lowercased tag name (empty for text nodes, which the walk never reaches). -/
def Node.tag : Node → String
  | .textN _ => ""
  | .elemN _ t _ _ _ _ _ _ _ => t

/-- Source: `getAttribute` (`none` models JS `null`). -/
def Node.getAttr : Node → String → Option String
  | .textN _, _ => none
  | .elemN _ _ attrs _ _ _ _ _ _, name => (attrs.lookup name)

/-- Source: `hasAttribute`. -/
def Node.hasAttr (n : Node) (name : String) : Bool := (n.getAttr name).isSome

/-- The `className` property. -/
def Node.className : Node → String
  | .textN _ => ""
  | .elemN _ _ _ c _ _ _ _ _ => c

/-- Host-rendered `innerText`. -/
def Node.innerText : Node → String
  | .textN _ => ""
  | .elemN _ _ _ _ t _ _ _ _ => t

/-- Host-resolved `currentSrc` (empty when absent). -/
def Node.currentSrc : Node → String
  | .textN _ => ""
  | .elemN _ _ _ _ _ s _ _ _ => s

/-- Computed `display: none`. -/
def Node.dispNone : Node → Bool
  | .textN _ => false
  | .elemN _ _ _ _ _ _ d _ _ => d

/-- Computed `visibility: hidden`. -/
def Node.visHidden : Node → Bool
  | .textN _ => false
  | .elemN _ _ _ _ _ _ _ v _ => v

/-- All child nodes (`childNodes`). -/
def Node.childNodes : Node → List Node
  | .textN _ => []
  | .elemN _ _ _ _ _ _ _ _ cs => cs.toList

/-- Element children (`el.children`). -/
def Node.elemChildren (n : Node) : List Node := n.childNodes.filter Node.isElem

/-- The `src` property of `img`/`video`; the host resolves it from the `src`
attribute, which is how we model it. -/
def Node.srcProp (n : Node) : String := (n.getAttr "src").getD ""

/-- The `href` property of an anchor; the host resolves it from the `href`
attribute, which is how we model it. -/
def Node.hrefProp (n : Node) : String := (n.getAttr "href").getD ""

mutual
/-- Source: `textContent`: concatenation of all descendant text nodes. -/
def Node.textContent : Node → String
  | .textN c => c
  | .elemN _ _ _ _ _ _ _ _ cs => NodeList.textConcat cs
/-- Source: `textContent` over a child list. -/
def NodeList.textConcat : NodeList → String
  | .nil => ""
  | .cons n tl => n.textContent ++ NodeList.textConcat tl
end

mutual
/-- Descendant elements in document (pre-)order, excluding the node itself. -/
def Node.descElems : Node → List Node
  | .textN _ => []
  | .elemN _ _ _ _ _ _ _ _ cs => NodeList.descConcat cs
/-- Pre-order element listing of a child list. -/
def NodeList.descConcat : NodeList → List Node
  | .nil => []
  | .cons n tl =>
    (if n.isElem then n :: n.descElems else []) ++ NodeList.descConcat tl
end

/-- Source: `el.querySelectorAll(p)` for a selector modelled as a predicate. -/
def qsa (n : Node) (p : Node → Bool) : List Node := n.descElems.filter p

/-- Source: `el.querySelector(p)`. -/
def qs (n : Node) (p : Node → Bool) : Option Node := (qsa n p).head?

/-- Document-level element universe: the root element and its descendants. -/
def docElems (doc : Node) : List Node := doc :: doc.descElems

/-- Source: `document.querySelectorAll(p)`. -/
def docQsa (doc : Node) (p : Node → Bool) : List Node := (docElems doc).filter p

/-- Source: `document.querySelector(p)`. -/
def docQs (doc : Node) (p : Node → Bool) : Option Node := (docQsa doc p).head?

/-- Source: `document.body`. -/
def docBody (doc : Node) : Option Node := docQs doc (fun n => n.tag == "body")

/-- Source: `root.contains(node)` (true for the root itself and its descendants),
by element identity. -/
def nodeContains (root node : Node) : Bool :=
  (root :: root.descElems).any fun d => d.nid == node.nid

/-- Pair each element child with its `previousElementSibling`. -/
def childrenWithPrev (cs : List Node) : List (Node × Option Node) :=
  (cs.foldl
    (fun (acc : List (Node × Option Node) × Option Node) c =>
      (acc.1 ++ [(c, acc.2)], some c))
    ([], none)).1

/-! ### The fixed selectors of the source -/

/-- Tag selector (`'article'`, `'p'`, …). -/
def selTag (t : String) (n : Node) : Bool := n.tag == t

/-- Source: `'a[href]'`. -/
def selAnchorHref (n : Node) : Bool := n.tag == "a" && n.hasAttr "href"

/-- Source: `'header,nav,aside,[role="navigation"]'` (also
`'header,nav,[role="navigation"],aside'` in `shouldSkip`). -/
def selHeaderNavAside (n : Node) : Bool :=
  n.tag == "header" || n.tag == "nav" || n.tag == "aside" ||
  n.getAttr "role" == some "navigation"

/-- Source: `'footer,[role="contentinfo"]'`. -/
def selFooterInfo (n : Node) : Bool :=
  n.tag == "footer" || n.getAttr "role" == some "contentinfo"

/-- Source: `'main,article'`. -/
def selMainArticle (n : Node) : Bool := n.tag == "main" || n.tag == "article"

/-- Source: `'button, a, [role="button"], [role="link"]'`. -/
def selClickable (n : Node) : Bool :=
  n.tag == "button" || n.tag == "a" ||
  n.getAttr "role" == some "button" || n.getAttr "role" == some "link"

/-- Source: `'h1, [role="heading"][aria-level="1"]'`. -/
def selH1OrHeading1 (n : Node) : Bool :=
  n.tag == "h1" ||
  (n.getAttr "role" == some "heading" && n.getAttr "aria-level" == some "1")

/-- Source: `'article, table, ul, ol'`. -/
def selStructList (n : Node) : Bool :=
  n.tag == "article" || n.tag == "table" || n.tag == "ul" || n.tag == "ol"

/-- Source: `'h2,h3,h4,p,blockquote,figcaption,li'` (fallback sweep). -/
def selFallbackTags (n : Node) : Bool :=
  ["h2", "h3", "h4", "p", "blockquote", "figcaption", "li"].contains n.tag

/-- Source: `'*'`. -/
def selAny (_ : Node) : Bool := true

/-! ### Tag sets of the source -/

def SKIP_TAGS : List String :=
  ["script", "style", "svg", "noscript", "template", "canvas", "iframe",
   "head", "meta", "link"]

def HEADING_TAGS : List String := ["h1", "h2", "h3", "h4", "h5", "h6"]

def HEADING_LIKE_TAGS : List String := ["summary", "legend"]

def BLOCK_TEXT_TAGS : List String :=
  ["p", "blockquote", "pre", "figcaption", "address", "dd", "dt"]

def CONTAINER_TAGS : List String :=
  ["section", "article", "main", "div", "aside", "header", "footer", "form",
   "fieldset"]

/-! ## Options, resolution, context, state -/

/-- The filter mode. -/
inductive FilterMode where
  | summary
  | compact
  | full
deriving DecidableEq

/-- The walk mode. -/
inductive WalkMode where
  | mainW
  | shellW
deriving DecidableEq

/-- Caller options (`ReadableOptions`).  `none` models an absent option; the
CSS selector string is modelled as a node predicate (the query capability of
the host contract). -/
structure ReadableOptions where
  selector : Option (Node → Bool) := none
  maxDepth : Option Int := none
  maxItems : Option Int := none
  maxListItems : Option Int := none
  maxLineLength : Option Int := none
  filterMode : Option FilterMode := none
  links : Option Bool := none
  dedupe : Option Bool := none
  dedupeWindow : Option Int := none
  includeFooter : Option Bool := none
  includeShell : Option Bool := none

/-- The host environment: an optional document root and the presence of a
`window` with `getComputedStyle`. -/
structure Env where
  doc : Option Node
  win : Bool

/-- Source: `maxDepth = typeof number ? max(0, ·) : 6`. -/
def resolveMaxDepth (o : ReadableOptions) : Nat :=
  match o.maxDepth with
  | some d => (max 0 d).toNat
  | none => 6

/-- Source: `maxItems = typeof number ? max(1, ·) : Infinity`. -/
def resolveMaxItems (o : ReadableOptions) : Option Nat :=
  o.maxItems.map fun i => (max 1 i).toNat

/-- Source: `maxListItems = typeof number ? max(1, ·) : Infinity`. -/
def resolveMaxListItems (o : ReadableOptions) : Option Nat :=
  o.maxListItems.map fun i => (max 1 i).toNat

/-- Source: `maxLineLength = typeof number ? max(40, ·) : Infinity` — the value
*before* the article-selection widening. -/
def resolveMaxLineLength0 (o : ReadableOptions) : Option Nat :=
  o.maxLineLength.map fun i => (max 40 i).toNat

/-- Source: `lineLimit = isFinite(maxLineLength) ? maxLineLength : 300`, computed
before root selection (hence from the pre-widening value). -/
def resolveLineLimit (o : ReadableOptions) : Nat :=
  (resolveMaxLineLength0 o).getD 300

/-- Source: `filterMode = opts.filterMode || 'summary'`. -/
def resolveFilterMode (o : ReadableOptions) : FilterMode :=
  o.filterMode.getD .summary

/-- Source: `linksEnabled = opts.links !== false`. -/
def resolveLinksEnabled (o : ReadableOptions) : Bool := o.links != some false

/-- Source: `dedupeEnabled = opts.dedupe !== false`. -/
def resolveDedupeEnabled (o : ReadableOptions) : Bool := o.dedupe != some false

/-- Source: `dedupeWindow = typeof number ? max(10, ·) : 120`. -/
def resolveDedupeWindow (o : ReadableOptions) : Nat :=
  match o.dedupeWindow with
  | some w => (max 10 w).toNat
  | none => 120

/-- Source: `includeFooter = opts.includeFooter === true`. -/
def resolveIncludeFooter (o : ReadableOptions) : Bool :=
  o.includeFooter == some true

/-- Source: `includeShell = opts.includeShell === true`. -/
def resolveIncludeShell (o : ReadableOptions) : Bool :=
  o.includeShell == some true

/-- The resolved, call-scoped configuration (constant during the walk;
`maxLineLength` already reflects the article widening). -/
structure Ctx where
  maxDepth : Nat
  maxItems : Option Nat
  maxListItems : Option Nat
  maxLineLength : Option Nat
  lineLimit : Nat
  filterMode : FilterMode
  linksEnabled : Bool
  dedupeEnabled : Bool
  dedupeWindow : Nat
  includeFooter : Bool
  includeShell : Bool
  rootNids : List Nat
  shellRootNids : List Nat
  win : Bool

/-- A link-table entry. -/
structure LinkEntry where
  ref : String
  href : String
deriving DecidableEq

/-- The mutable extraction context of one call. -/
structure St where
  itemCount : Nat
  truncated : Bool
  lines : List String
  fingerprintWindow : List String
  fingerprintSet : List String
  linkMap : List (String × String)
  linkList : List LinkEntry
  linkCounter : Nat
  shellMode : Bool
  shellRemaining : Nat
  walkMode : WalkMode

/-- The initial extraction state. -/
def initSt : St :=
  { itemCount := 0, truncated := false, lines := [], fingerprintWindow := [],
    fingerprintSet := [], linkMap := [], linkList := [], linkCounter := 0,
    shellMode := false, shellRemaining := 0, walkMode := .mainW }

/-- JS `Set#add` on the fingerprint set (no duplicates). -/
def setAdd (s : List String) (x : String) : List String :=
  if s.contains x then s else s ++ [x]

/-- JS `Set#delete` (the set holds no duplicates, so erasing the first
occurrence is a faithful model). -/
def setDel (s : List String) (x : String) : List String := s.erase x

/-- Source: `itemCount >= maxItems` with an `Infinity` cap never reached. -/
def itemBudgetReached (maxItems : Option Nat) (itemCount : Nat) : Bool :=
  match maxItems with
  | none => false
  | some m => m ≤ itemCount

/-- Source: `addLine` of the source: the single emission point.  Order of guards:
truncation, exhausted shell budget, empty cleaned text, duplicate
fingerprint (headings exempt), item budget (the only place that sets
`truncated`); then push the trimmed decorated line and update the
fingerprint window. -/
def addLine (ctx : Ctx) (line : String) (linkRef : Option String) (s : St) : St :=
  if s.truncated then s
  else if s.shellMode && s.shellRemaining == 0 then s
  else
    let cleaned := normalizeBullets (cleanText line)
    if cleaned = "" then s
    else
      let fingerprint := fingerprintLine cleaned
      let isHeading := strStartsWith cleaned "#"
      if ctx.dedupeEnabled && !isHeading && s.fingerprintSet.contains fingerprint
        then s
      else if itemBudgetReached ctx.maxItems s.itemCount then
        { s with truncated := true }
      else
        let s1 :=
          { s with
            lines := s.lines ++ [trimLine ctx.maxLineLength
              (decorateLine cleaned linkRef)],
            itemCount := s.itemCount + 1,
            shellRemaining :=
              if s.shellMode then s.shellRemaining - 1 else s.shellRemaining }
        if ctx.dedupeEnabled then
          let set1 := setAdd s1.fingerprintSet fingerprint
          let win1 := s1.fingerprintWindow ++ [fingerprint]
          if win1.length > ctx.dedupeWindow then
            match win1 with
            | [] => { s1 with fingerprintSet := set1, fingerprintWindow := [] }
            | removed :: rest =>
              { s1 with
                fingerprintWindow := rest,
                fingerprintSet :=
                  if removed ≠ "" then setDel set1 removed else set1 }
          else { s1 with fingerprintSet := set1, fingerprintWindow := win1 }
        else s1

/-- Source: `registerLink` of the source: trim, reject non-content schemes, intern. -/
def registerLink (href : String) (s : St) : Option String × St :=
  let trimmed := jsTrim href
  if trimmed = "" || strStartsWith trimmed "javascript:" ||
      strStartsWith trimmed "#" || strStartsWith trimmed "data:" ||
      strStartsWith trimmed "blob:" then
    (none, s)
  else
    match s.linkMap.lookup trimmed with
    | some ref => (some ("@" ++ ref), s)
    | none =>
      let ref := "L" ++ toString (s.linkCounter + 1)
      (some ("@" ++ ref),
        { s with
          linkCounter := s.linkCounter + 1,
          linkMap := s.linkMap ++ [(trimmed, ref)],
          linkList := s.linkList ++ [⟨ref, trimmed⟩] })

/-- Source: `getLinkRef` of the source. -/
def getLinkRef (ctx : Ctx) (el : Node) (s : St) : Option String × St :=
  if !ctx.linksEnabled then (none, s)
  else
    let anchor := if el.tag == "a" then some el else qs el selAnchorHref
    match anchor with
    | none => (none, s)
    | some a =>
      let href :=
        match a.getAttr "href" with
        | some h => if h = "" then a.hrefProp else h
        | none => a.hrefProp
      if href = "" then (none, s) else registerLink href s

/-! ## Per-node predicates and extraction helpers -/

/-- Source: `isHidden` of the source: `hidden` attribute, `aria-hidden="true"`, or
(when a window with `getComputedStyle` exists) computed
`display:none`/`visibility:hidden`. -/
def isHidden (ctx : Ctx) (el : Node) : Bool :=
  if el.hasAttr "hidden" then true
  else if el.getAttr "aria-hidden" == some "true" then true
  else if !ctx.win then false
  else el.dispNone || el.visHidden

/-- Source: `shouldSkip` of the source.  `anc` is the ancestor chain (nearest first);
`closest` tests the node itself and then the ancestors. -/
def shouldSkip (ctx : Ctx) (el : Node) (anc : List Node) (mode : WalkMode) :
    Bool :=
  if ctx.includeFooter then false
  else if ctx.rootNids.contains el.nid then false
  else if ctx.shellRootNids.contains el.nid then false
  else
    let chain := el :: anc
    if chain.any selFooterInfo then true
    else if mode == .mainW && chain.any selHeaderNavAside then true
    else if mode == .shellW && chain.any selMainArticle then true
    else false

/-- Source: `emitHiddenHeading` of the source: a small hidden node (at most two
element children, at most 60 cleaned characters) is emitted as a level-3
heading; returns whether the node was handled. -/
def emitHiddenHeading (ctx : Ctx) (el : Node) (s : St) : Bool × St :=
  if el.textContent = "" then (false, s)
  else if el.elemChildren.length > 2 then (false, s)
  else
    let text := cleanText el.textContent
    if text = "" || slen text > 60 then (false, s)
    else (true, addLine ctx ("### " ++ text) none s)

/-- Source: `getHeadingLevel` of the source.  `Number(...)` is modelled for decimal
digit strings (the values the source exercises); anything else coerces to
the default 3. -/
def getHeadingLevel (el : Node) (tag : String) : Nat :=
  if HEADING_TAGS.contains tag then
    (parseNatDigits (String.mk (tag.toList.drop 1))).getD 3
  else if el.getAttr "role" == some "heading" then
    match parseNatDigits ((el.getAttr "aria-level").getD "3") with
    | some l => if l > 0 then l else 3
    | none => 3
  else 3

mutual
/-- Source: `collectInlineText` of the source: walk `childNodes`, keeping raw text,
turning anchors into `[text]@Lk` (registering their link), skipping
headings, block tags, lists and hidden nodes, and recursing elsewhere.
Anchor link registration makes this state-threading. -/
def collectInlineText (ctx : Ctx) : Node → St → String × St
  | .textN _, s => ("", s)
  | .elemN _ _ _ _ _ _ _ _ cs, s =>
    let (parts, s') := collectInlineParts ctx cs s
    (String.intercalate " " parts, s')
/-- The child-node loop of `collectInlineText` (accumulating `parts`). -/
def collectInlineParts (ctx : Ctx) : NodeList → St → List String × St
  | .nil, s => ([], s)
  | .cons node tl, s =>
    match node with
    | .textN c =>
      let (parts, s') := collectInlineParts ctx tl s
      (if c ≠ "" then c :: parts else parts, s')
    | .elemN .. =>
      let tag := node.tag
      if SKIP_TAGS.contains tag then collectInlineParts ctx tl s
      else if tag == "a" then
        let text := cleanText node.textContent
        if text = "" then collectInlineParts ctx tl s
        else
          let (linkRef, s1) := getLinkRef ctx node s
          let piece :=
            match linkRef with
            | some r => "[" ++ text ++ "]" ++ r
            | none => text
          let (parts, s2) := collectInlineParts ctx tl s1
          (piece :: parts, s2)
      else if HEADING_TAGS.contains tag || HEADING_LIKE_TAGS.contains tag then
        collectInlineParts ctx tl s
      else if BLOCK_TEXT_TAGS.contains tag || tag == "ul" || tag == "ol" then
        collectInlineParts ctx tl s
      else if isHidden ctx node then collectInlineParts ctx tl s
      else
        let (t, s1) := collectInlineText ctx node s
        let (parts, s2) := collectInlineParts ctx tl s1
        (t :: parts, s2)
end

/-- Source: `extractInlineText` of the source. -/
def extractInlineText (ctx : Ctx) (el : Node) (s : St) : String × St :=
  let (t, s') := collectInlineText ctx el s
  (cleanText t, s')

/-- Source: `compactText` of the source: split rendered text on newline runs, clean,
drop consecutive case-insensitive duplicates, join with bullets, trim. -/
def compactText (ctx : Ctx) (el : Node) : String :=
  let parts := ((splitNewlineRuns el.innerText).map cleanText).filter (· ≠ "")
  let unique :=
    parts.foldl
      (fun (acc : List String) part =>
        match acc.getLast? with
        | some last =>
          if strLower last == strLower part then acc else acc ++ [part]
        | none => acc ++ [part])
      []
  trimLine ctx.maxLineLength (normalizeBullets (String.intercalate " • " unique))

/-- Source: `isStandaloneInline` of the source, on the parent element (the head of
the ancestor chain). -/
def isStandaloneInline (parent? : Option Node) : Bool :=
  match parent? with
  | none => true
  | some p =>
    let tag := p.tag
    if HEADING_TAGS.contains tag || HEADING_LIKE_TAGS.contains tag then false
    else if BLOCK_TEXT_TAGS.contains tag then false
    else if tag == "li" || tag == "button" || tag == "a" || tag == "label" then
      false
    else true

/-- Source: `isCard` of the source. -/
def isCard (el : Node) : Bool :=
  if el.tag == "article" then true
  else
    let role := el.getAttr "role"
    if role == some "article" || role == some "listitem" then true
    else
      let testId := (el.getAttr "data-testid").getD ""
      strContains testId "card" || strContains testId "model"

/-- Source: `hasBlockChildren` of the source. -/
def hasBlockChildren (el : Node) : Bool :=
  el.elemChildren.any fun child =>
    let t := child.tag
    HEADING_TAGS.contains t || HEADING_LIKE_TAGS.contains t ||
    BLOCK_TEXT_TAGS.contains t || t == "ul" || t == "ol" || t == "li" ||
    t == "article"

/-- Source: `shouldSummarizeCard` of the source. -/
def shouldSummarizeCard (ctx : Ctx) (el : Node) : Bool :=
  if !isCard el then false
  else if ctx.rootNids.contains el.nid then false
  else if hasBlockChildren el then false
  else slen (cleanText el.innerText) ≤ ctx.lineLimit * 2

/-- Source: `isActiveChip` of the source. -/
def isActiveChip (el : Node) : Bool :=
  if el.getAttr "aria-pressed" == some "true" then true
  else if el.getAttr "aria-selected" == some "true" then true
  else if
      (match el.getAttr "aria-current" with
       | some v => v ≠ "" && v ≠ "false"
       | none => false) then true
  else if
      (match el.getAttr "data-state" with
       | some v => ["checked", "selected", "active"].contains v
       | none => false) then true
  else
    let className := strLower el.className
    strContains className "active" || strContains className "selected" ||
      strContains className "checked"

/-- Source: `/^reset\b/i`. -/
def startsReset (s : String) : Bool :=
  let low := (strLower s).toList
  "reset".toList.isPrefixOf low &&
    (match low.drop 5 with
     | [] => true
     | c :: _ => !isWordChar c)

/-- The `isLabelCandidate` closure of `findGroupLabel`. -/
def isLabelCandidate (text : String) : Bool :=
  if text = "" then false
  else
    let cs := text.toList
    if !(cs.any Char.isAlpha) && cs.any Char.isDigit then false
    else
      let digitCount := countDigitRuns cs
      let tokenCount := countWsTokens text
      if digitCount ≥ 3 then false
      else if digitCount ≥ 2 && tokenCount ≥ 3 then false
      else if
          (match cs with
           | c :: _ => (c == '<' || c == '>') && digitCount ≥ 1
           | [] => false) then false
      else if startsReset text then false
      else true

/-- The `isInteractive` closure of `findGroupLabel`. -/
def isInteractive (node : Node) : Bool :=
  let tag := node.tag
  if tag == "button" || tag == "a" then true
  else
    let role := node.getAttr "role"
    role == some "button" || role == some "link"

/-- The label tag set of `findGroupLabel`. -/
def labelTags : List String := ["label", "strong", "span", "p"]

/-- A fold step that keeps the first found label; once found, later
candidates are not extracted (mirroring the early `return`, which also
stops their link registrations). -/
def firstLabel (step : Node → St → Option String × St)
    (nodes : List Node) (s : St) : Option String × St :=
  nodes.foldl
    (fun (acc : Option String × St) node =>
      match acc with
      | (some l, st) => (some l, st)
      | (none, st) => step node st)
    (none, s)

/-- The heading/label-tag child step of `findGroupLabel` (first loop). -/
def labelStepTagged (ctx : Ctx) (child : Node) (st : St) : Option String × St :=
  let tag := child.tag
  if HEADING_TAGS.contains tag || HEADING_LIKE_TAGS.contains tag ||
      labelTags.contains tag then
    let r := extractInlineText ctx child st
    if r.1 ≠ "" && slen r.1 ≤ 40 && isLabelCandidate r.1 then (some r.1, r.2)
    else (none, r.2)
  else (none, st)

/-- The non-interactive candidate step of `findGroupLabel` (second, third
and sibling probes), with the applicable length ceiling. -/
def labelStepPlain (ctx : Ctx) (limit : Nat) (node : Node) (st : St) :
    Option String × St :=
  if isInteractive node then (none, st)
  else if (qs node selClickable).isSome then (none, st)
  else
    let r := extractInlineText ctx node st
    if r.1 ≠ "" && slen r.1 ≤ limit && isLabelCandidate r.1 then (some r.1, r.2)
    else (none, r.2)

/-- Source: `findGroupLabel` of the source: aria-label, then heading/label-like
children, then non-interactive children, then non-interactive descendants,
then the previous element sibling. -/
def findGroupLabel (ctx : Ctx) (el : Node) (prevSib : Option Node) (s : St) :
    Option String × St :=
  let ariaLabel := cleanText ((el.getAttr "aria-label").getD "")
  if ariaLabel ≠ "" && isLabelCandidate ariaLabel then (some ariaLabel, s)
  else
    let children := el.elemChildren
    let f1 := firstLabel (labelStepTagged ctx) children s
    match f1.1 with
    | some l => (some l, f1.2)
    | none =>
      let f2 := firstLabel (labelStepPlain ctx 30) children f1.2
      match f2.1 with
      | some l => (some l, f2.2)
      | none =>
        let f3 := firstLabel (labelStepPlain ctx 30) (qsa el selAny) f2.2
        match f3.1 with
        | some l => (some l, f3.2)
        | none =>
          match prevSib with
          | some prev => labelStepPlain ctx 30 prev f3.2
          | none => (none, f3.2)

/-- A recognised facet/filter widget. -/
structure FilterGroup where
  label : String
  items : List String
  activeItems : List String

/-- Extract item texts from chips, in order, dropping empties. -/
def extractChipTexts (ctx : Ctx) (chips : List Node) (s : St) :
    List String × St :=
  chips.foldl
    (fun (acc : List String × St) node =>
      let r := extractInlineText ctx node acc.2
      (if r.1 ≠ "" then acc.1 ++ [r.1] else acc.1, r.2))
    ([], s)

/-- Source: `extractFilterGroup` of the source. -/
def extractFilterGroup (ctx : Ctx) (el : Node) (prevSib : Option Node)
    (s : St) : Option FilterGroup × St :=
  if !CONTAINER_TAGS.contains el.tag then (none, s)
  else if ctx.rootNids.contains el.nid then (none, s)
  else if (qs el selH1OrHeading1).isSome then (none, s)
  else if (qs el selStructList).isSome then (none, s)
  else
    let fg := findGroupLabel ctx el prevSib s
    match fg.1 with
    | none => (none, fg.2)
    | some label =>
      let chipNodes :=
        (qsa el selClickable).filter fun n => n.isElem && !isHidden ctx n
      if chipNodes.length < 3 then (none, fg.2)
      else
        let ir := extractChipTexts ctx chipNodes fg.2
        if ir.1.length < 2 then (none, ir.2)
        else
          let shortCount := (ir.1.filter fun i => slen i ≤ 40).length
          if 10 * shortCount < 7 * max ir.1.length 1 then (none, ir.2)
          else
            let ar := extractChipTexts ctx (chipNodes.filter isActiveChip) ir.2
            (some ⟨label, ir.1, ar.1⟩, ar.2)

/-- Source: `/^\+\s*(\d+)$/`: a `+N` pseudo-item; returns `N` on a match. -/
def plusFoldMatch (item : String) : Option Nat :=
  match item.toList with
  | '+' :: rest =>
    let r1 := rest.dropWhile jsIsWs
    let digits := r1.takeWhile Char.isDigit
    if digits ≠ [] && r1.drop digits.length = [] then some (digitsToNat digits)
    else none
  | _ => none

/-- Source: `maxListItems` slice (`Infinity` keeps everything). -/
def takeOpt (bound : Option Nat) (l : List String) : List String :=
  match bound with
  | none => l
  | some n => l.take n

/-- Source: `formatFilterGroup` of the source: drop `reset…` items, fold `+N`
pseudo-items into a counter, dedupe case-insensitively, pick active items
first in compact mode, cap at `maxListItems`, and append `(+K more)`. -/
def formatFilterGroup (ctx : Ctx) (g : FilterGroup) : String :=
  let cleanedItems := g.items.filter fun i => !startsReset i
  let folded :=
    cleanedItems.foldl
      (fun (acc : Nat × List String) item =>
        match plusFoldMatch item with
        | some n => (acc.1 + n, acc.2)
        | none => (acc.1, acc.2 ++ [item]))
      (0, [])
  let extraCount := folded.1
  let uniqueSeen :=
    folded.2.foldl
      (fun (acc : List String × List String) item =>
        let key := strLower item
        if acc.2.contains key then acc
        else (acc.1 ++ [item], acc.2 ++ [key]))
      ([], [])
  let uniqueItems := uniqueSeen.1
  let seen := uniqueSeen.2
  let activeUnique := g.activeItems.filter fun i => seen.contains (strLower i)
  let remaining :=
    uniqueItems.filter fun item =>
      !(activeUnique.any fun active => strLower active == strLower item)
  let selected :=
    if ctx.filterMode = .compact then
      takeOpt ctx.maxListItems (activeUnique ++ remaining)
    else takeOpt ctx.maxListItems uniqueItems
  if selected = [] then ""
  else
    let remainingCount := uniqueItems.length - selected.length
    let moreCount := remainingCount + extraCount
    let suffix :=
      if moreCount > 0 then " (+" ++ toString moreCount ++ " more)" else ""
    g.label ++ ": " ++ String.intercalate ", " selected ++ suffix

/-! ## The tree walk -/

/-- A loop that walks nodes in order and stops after the walk that set
`truncated` (the `if (truncated) return` of the source's loops). -/
def walkItemsLoop (walkChild : Node → Option Node → St → St) :
    List (Node × Option Node) → St → St
  | [], s => s
  | (c, pv) :: rest, s =>
    let s' := walkChild c pv s
    if s'.truncated then s' else walkItemsLoop walkChild rest s'

/-- Source: `handleList` of the source: walk at most `maxListItems` of the `li`
children, then collapse the remainder into one `… (N more)` line.
`walkChild` is the recursive walk at `depth + 1`, `listDepth + 1`. -/
def handleListWith (ctx : Ctx) (walkChild : Node → Option Node → St → St)
    (el : Node) (listDepth : Nat) (s : St) : St :=
  let itemPairs :=
    (childrenWithPrev el.elemChildren).filter fun p => p.1.tag == "li"
  let limit := min itemPairs.length (ctx.maxListItems.getD itemPairs.length)
  let s1 := walkItemsLoop walkChild (itemPairs.take limit) s
  if s1.truncated then s1
  else if itemPairs.length > limit then
    addLine ctx
      (repeatStr "  " listDepth ++ "- … (" ++
        toString (itemPairs.length - limit) ++ " more)")
      none s1
  else s1

/-- The `figure` branch of the walk (source lines 656–669). -/
def walkFigurePart (ctx : Ctx) (el : Node) (s : St) : St :=
  let captionPair :=
    match qs el (selTag "figcaption") with
    | some c => extractInlineText ctx c s
    | none => ("", s)
  let caption := captionPair.1
  let s1 := captionPair.2
  let img := qs el (selTag "img")
  let video := qs el (selTag "video")
  let label :=
    if caption ≠ "" then caption
    else
      match img with
      | some i =>
        let alt := (i.getAttr "alt").getD ""
        if alt ≠ "" then alt else "Media"
      | none => "Media"
  let imgSrc :=
    match img with
    | some i => if i.currentSrc ≠ "" then i.currentSrc else i.srcProp
    | none => ""
  let vidSrc :=
    match video with
    | some v =>
      if v.currentSrc ≠ "" then v.currentSrc
      else if v.srcProp ≠ "" then v.srcProp
      else (v.getAttr "poster").getD ""
    | none => ""
  let src := if imgSrc ≠ "" then imgSrc else vidSrc
  let lr := if src ≠ "" then registerLink src s1 else (none, s1)
  if label ≠ "" then addLine ctx ("- " ++ label) lr.1 lr.2 else lr.2

/-- The `li` branch of the walk (source lines 687–700); `walkChild` is the
recursive walk at `depth + 1`, `listDepth + 1`, used on nested lists. -/
def walkLiPart (ctx : Ctx) (walkChild : Node → Option Node → St → St)
    (el : Node) (listDepth : Nat) (s : St) : St :=
  let r := extractInlineText ctx el s
  let text := if r.1 = "" then compactText ctx el else r.1
  let lr := getLinkRef ctx el r.2
  let s3 :=
    if text ≠ "" then
      addLine ctx (repeatStr "  " listDepth ++ "- " ++ text) lr.1 lr.2
    else lr.2
  ((childrenWithPrev el.elemChildren).filter fun p =>
    p.1.tag == "ul" || p.1.tag == "ol").foldl
    (fun st cp => walkChild cp.1 cp.2 st) s3

/-- The tail of the walk's dispatch (source lines 744–763): standalone
button/anchor, leaf text, or recursion into children.  `walkChild` is the
recursive walk at `depth + 1`, same `listDepth`. -/
def walkAfterPart (ctx : Ctx) (walkChild : Node → Option Node → St → St)
    (el : Node) (anc : List Node) (listDepth : Nat) (s3 : St) : St :=
  let tag := el.tag
  if (tag == "button" || tag == "a") && isStandaloneInline anc.head? then
    let r := extractInlineText ctx el s3
    let lr := getLinkRef ctx el r.2
    if r.1 ≠ "" then
      addLine ctx (repeatStr "  " listDepth ++ "- " ++ r.1) lr.1 lr.2
    else lr.2
  else if el.elemChildren.length == 0 then
    let text := cleanText el.textContent
    if text ≠ "" then
      let lr := getLinkRef ctx el s3
      addLine ctx text lr.1 lr.2
    else s3
  else walkItemsLoop walkChild (childrenWithPrev el.elemChildren) s3

/-- The dispatch after the filter-group probe (source lines 714–763): card
summary, block text, compactable container, then `walkAfterPart`. -/
def walkRestPart (ctx : Ctx) (walkChild : Node → Option Node → St → St)
    (el : Node) (anc : List Node) (listDepth : Nat) (s2 : St) : St :=
  let tag := el.tag
  if shouldSummarizeCard ctx el then
    let text := compactText ctx el
    let lr := getLinkRef ctx el s2
    if text ≠ "" then
      addLine ctx (repeatStr "  " listDepth ++ "- " ++ text) lr.1 lr.2
    else lr.2
  else if BLOCK_TEXT_TAGS.contains tag then
    let r := extractInlineText ctx el s2
    if r.1 ≠ "" then addLine ctx r.1 none r.2 else r.2
  else if CONTAINER_TAGS.contains tag then
    if ctx.rootNids.contains el.nid then
      walkAfterPart ctx walkChild el anc listDepth s2
    else if !s2.shellMode then
      let hasBlock := hasBlockChildren el
      let r := extractInlineText ctx el s2
      let childCount := el.elemChildren.length
      let isCompact := slen r.1 ≤ ctx.lineLimit && childCount ≤ 3
      if r.1 ≠ "" && !hasBlock && isCompact then addLine ctx r.1 none r.2
      else walkAfterPart ctx walkChild el anc listDepth r.2
    else walkAfterPart ctx walkChild el anc listDepth s2
  else walkAfterPart ctx walkChild el anc listDepth s2

/-- Source: `walk` of the source.  The first argument is the remaining depth gas
`maxDepth + 1 - depth`; the source's `if (depth > maxDepth) return` is the
gas-0 case, and every recursive call of the source increments `depth`, i.e.
decrements the gas.  `anc` is the ancestor element chain (nearest first),
`prevSib` the previous element sibling. -/
def walkF (ctx : Ctx) :
    Nat → Node → List Node → Option Node → Nat → St → St
  | gas, el, anc, prevSib, listDepth, s =>
    if s.truncated then s
    else
      match gas with
      | 0 => s
      | gas' + 1 =>
        match el with
        | .textN _ => s
        | .elemN .. =>
          let tag := el.tag
          if SKIP_TAGS.contains tag then s
          else if shouldSkip ctx el anc s.walkMode then s
          else if isHidden ctx el then (emitHiddenHeading ctx el s).2
          else if tag == "ul" || tag == "ol" then
            handleListWith ctx
              (fun c pv st => walkF ctx gas' c (el :: anc) pv (listDepth + 1) st)
              el listDepth s
          else if HEADING_TAGS.contains tag || HEADING_LIKE_TAGS.contains tag ||
              el.getAttr "role" == some "heading" then
            let r := extractInlineText ctx el s
            if r.1 ≠ "" then
              let level := getHeadingLevel el tag
              addLine ctx
                (repeatStr "#" (min (max level 1) 6) ++ " " ++ r.1) none r.2
            else r.2
          else if tag == "blockquote" then
            let r := extractInlineText ctx el s
            if r.1 ≠ "" then addLine ctx ("> " ++ r.1) none r.2 else r.2
          else if tag == "figure" then walkFigurePart ctx el s
          else if tag == "img" then
            let alt0 := cleanText ((el.getAttr "alt").getD "")
            let alt := if alt0 ≠ "" then alt0 else "Image"
            let src := if el.currentSrc ≠ "" then el.currentSrc else el.srcProp
            let lr := if src ≠ "" then registerLink src s else (none, s)
            addLine ctx ("- " ++ alt) lr.1 lr.2
          else if tag == "video" then
            let c0 := cleanText ((el.getAttr "aria-label").getD "")
            let caption := if c0 ≠ "" then c0 else "Video"
            let src :=
              if el.currentSrc ≠ "" then el.currentSrc
              else if el.srcProp ≠ "" then el.srcProp
              else (el.getAttr "poster").getD ""
            let lr := if src ≠ "" then registerLink src s else (none, s)
            addLine ctx ("- " ++ caption) lr.1 lr.2
          else if tag == "li" then
            walkLiPart ctx
              (fun c pv st => walkF ctx gas' c (el :: anc) pv (listDepth + 1) st)
              el listDepth s
          else
            let gr := extractFilterGroup ctx el prevSib s
            match gr.1 with
            | some g =>
              if ctx.filterMode ≠ .full then
                let line := formatFilterGroup ctx g
                if line ≠ "" then
                  addLine ctx (repeatStr "  " listDepth ++ "- " ++ line) none gr.2
                else gr.2
              else
                walkRestPart ctx
                  (fun c pv st => walkF ctx gas' c (el :: anc) pv listDepth st)
                  el anc listDepth gr.2
            | none =>
              walkRestPart ctx
                (fun c pv st => walkF ctx gas' c (el :: anc) pv listDepth st)
                el anc listDepth gr.2

/-! ## Locating a root's ancestors and previous sibling -/

mutual
/-- Search the strict descendants of a node for the element with identity
`target`; `chain` is the ancestor chain its children would have. -/
def findInNode : Node → List Node → Nat → Option (List Node × Option Node)
  | .textN _, _, _ => none
  | .elemN _ _ _ _ _ _ _ _ cs, chain, target => findInList cs chain target none
/-- Sequential search of a child list, tracking the previous element
sibling. -/
def findInList :
    NodeList → List Node → Nat → Option Node →
      Option (List Node × Option Node)
  | .nil, _, _, _ => none
  | .cons c tl, chain, target, prev =>
    if c.isElem then
      if c.nid == target then some (chain, prev)
      else
        match findInNode c (c :: chain) target with
        | some r => some r
        | none => findInList tl chain target (some c)
    else findInList tl chain target prev
end

/-- Ancestors (nearest first) and previous element sibling of the element
with identity `target` inside `doc`. -/
def findNodeCtx (doc : Node) (target : Nat) :
    Option (List Node × Option Node) :=
  if doc.isElem && doc.nid == target then some ([], none)
  else findInNode doc [doc] target

/-- Source: `walk(root, 0, 0)` with the root's true document position. -/
def walkRoot (ctx : Ctx) (doc : Node) (root : Node) (s : St) : St :=
  match findNodeCtx doc root.nid with
  | some (anc, pv) => walkF ctx (ctx.maxDepth + 1) root anc pv 0 s
  | none => walkF ctx (ctx.maxDepth + 1) root [] none 0 s

/-! ## Root selection -/

/-- The article score `pLen + pCount*200 - linkCount*20` with its
qualification data. -/
def articleScore (a : Node) : Int × Nat × Nat :=
  let paragraphs := qsa a (selTag "p")
  let paragraphText :=
    String.intercalate " " (paragraphs.map fun p => jsTrim p.innerText)
  let pLen := slen paragraphText
  let pCount := paragraphs.length
  let linkCount := (qsa a (selTag "a")).length
  ((pLen : Int) + pCount * 200 - linkCount * 20, pLen, pCount)

/-- The best qualifying article (paragraph text ≥ 400 chars or ≥ 3
paragraphs, strictly highest score, first wins ties). -/
def pickBestArticle (articles : List Node) : Option Node :=
  (articles.foldl
    (fun (acc : Option Node × Int) article =>
      let sc := articleScore article
      if (sc.2.1 ≥ 400 || sc.2.2 ≥ 3) && sc.1 > acc.2 then (some article, sc.1)
      else acc)
    (none, -1)).1

/-- Root selection (source lines 53–99): explicit selector, else best
article (widening the line-length floor to 360), else the longer of `main`
and `body`.  Returns the roots and the effective `maxLineLength`. -/
def selectRootsAndLimit (doc : Node) (o : ReadableOptions) :
    List Node × Option Nat :=
  let mll0 := resolveMaxLineLength0 o
  let roots0 : List Node :=
    match o.selector with
    | some p =>
      let selected := docQsa doc p
      if selected.length > 0 then selected else []
    | none => []
  if roots0.length > 0 then (roots0, mll0)
  else
    match pickBestArticle (docQsa doc (selTag "article")) with
    | some bestArticle =>
      let mll :=
        match mll0 with
        | some m => if m < 360 then some 360 else some m
        | none => none
      ([bestArticle], mll)
    | none =>
      let candidates :=
        ([docQs doc (selTag "main")].filterMap id) ++
          ([docBody doc].filterMap id)
      let best :=
        (candidates.foldl
          (fun (acc : Option Node × Int) c =>
            let score : Int := slen (jsTrim c.innerText)
            if score > acc.2 then (some c, score) else acc)
          (none, -1)).1
      (match best with | some b => [b] | none => [], mll0)

/-- Shell-root selection (source lines 101–115): all
header/nav/aside/navigation landmarks not contained in a main root. -/
def selectShell (doc : Node) (includeShell : Bool) (roots : List Node) :
    List Node :=
  if !includeShell then []
  else
    let shellRoots := docQsa doc selHeaderNavAside
    if shellRoots.length > 0 then
      shellRoots.filter fun node => !(roots.any fun root => nodeContains root node)
    else shellRoots

/-! ## The passes after root selection -/

/-- The shell pass (`withShellMode(60, …)`): walk shell roots under a 60-item
budget in shell mode, restoring the previous mode state. -/
def shellPass (ctx : Ctx) (doc : Node) (shellRoots : List Node) (s : St) : St :=
  let s1 :=
    { s with shellMode := true, shellRemaining := 60, walkMode := .shellW }
  let s2 :=
    shellRoots.foldl
      (fun st root => if st.truncated then st else walkRoot ctx doc root st) s1
  { s2 with
    shellMode := s.shellMode, shellRemaining := s.shellRemaining,
    walkMode := s.walkMode }

/-- The main pass: set main walk mode, then walk every root. -/
def mainPass (ctx : Ctx) (doc : Node) (roots : List Node) (s : St) : St :=
  roots.foldl (fun st root => walkRoot ctx doc root st)
    { s with walkMode := .mainW }

/-- Source: `anchor.getAttribute('href') || anchor.href` (the property is
host-resolved from the attribute in our model). -/
def anchorHref (a : Node) : String := (a.getAttr "href").getD ""

/-- The post-traversal anchor sweep over main roots. -/
def sweepLinks (ctx : Ctx) (roots : List Node) (s : St) : St :=
  if ctx.linksEnabled && roots.length > 0 then
    roots.foldl
      (fun st root =>
        (qsa root selAnchorHref).foldl
          (fun st anchor =>
            let href := anchorHref anchor
            if href ≠ "" then (registerLink href st).2 else st)
          st)
      s
  else s

/-- The shell anchor sweep, capped at 60 links beyond the pre-sweep count. -/
def sweepShellLinks (ctx : Ctx) (shellRoots : List Node) (s : St) : St :=
  if ctx.linksEnabled && ctx.includeShell && shellRoots.length > 0 then
    let baseCount := s.linkList.length
    shellRoots.foldl
      (fun st root =>
        if st.linkList.length - baseCount ≥ 60 then st
        else
          (qsa root selAnchorHref).foldl
            (fun st anchor =>
              if st.linkList.length - baseCount ≥ 60 then st
              else
                let href := anchorHref anchor
                if href ≠ "" then (registerLink href st).2 else st)
            st)
      s
  else s

/-- Source: `addNodeLine` of the fallback pass. -/
def addNodeLine (ctx : Ctx) (node : Node) (s : St) : St :=
  let tag := node.tag
  if tag == "blockquote" then
    let r := extractInlineText ctx node s
    if r.1 ≠ "" then addLine ctx ("> " ++ r.1) none r.2 else r.2
  else if tag == "li" then
    let r := extractInlineText ctx node s
    if r.1 ≠ "" then addLine ctx ("- " ++ r.1) none r.2 else r.2
  else if tag == "p" then
    let r := extractInlineText ctx node s
    if r.1 ≠ "" then addLine ctx r.1 none r.2 else r.2
  else if tag == "figcaption" then
    let r := extractInlineText ctx node s
    if r.1 ≠ "" then addLine ctx ("- " ++ r.1) none r.2 else r.2
  else if HEADING_TAGS.contains tag then
    let r := extractInlineText ctx node s
    if r.1 ≠ "" then
      let level := getHeadingLevel node tag
      addLine ctx (repeatStr "#" (min (max level 2) 6) ++ " " ++ r.1) none r.2
    else r.2
  else s

/-- The fallback node loop (`addNodeLine(node); if (truncated) break`). -/
def fallbackNodesLoop (ctx : Ctx) : List Node → St → St
  | [], s => s
  | node :: rest, s =>
    let s' := addNodeLine ctx node s
    if s'.truncated then s' else fallbackNodesLoop ctx rest s'

/-- The low-yield fallback pass (source lines 802–861). -/
def fallbackPhase (ctx : Ctx) (roots : List Node) (s : St) : St :=
  let totalChars := s.lines.foldl (fun acc l => acc + slen l) 0
  if roots.length > 0 && (s.lines.length < 8 || totalChars < 400) then
    roots.foldl
      (fun st root =>
        let st1 := fallbackNodesLoop ctx (qsa root selFallbackTags) st
        if !st1.truncated && st1.lines.length < 8 then
          let segments :=
            ((splitNewlineRuns root.innerText).map cleanText).filter (· ≠ "")
          segments.foldl
            (fun st seg =>
              if countWsTokens seg ≥ 4 then addLine ctx seg none st else st)
            st1
        else st1)
      s
  else s

/-- The link-table loop (`addLine('@ref href'); if (truncated) break`). -/
def linkTableLoop (ctx : Ctx) : List LinkEntry → St → St
  | [], s => s
  | e :: rest, s =>
    let s' := addLine ctx ("@" ++ e.ref ++ " " ++ e.href) none s
    if s'.truncated then s' else linkTableLoop ctx rest s'

/-- The link-table phase (source lines 863–869). -/
def linkTablePhase (ctx : Ctx) (s : St) : St :=
  if ctx.linksEnabled && s.linkList.length > 0 && !s.truncated then
    linkTableLoop ctx s.linkList (addLine ctx "### Links" none s)
  else s

/-! ## The whole call -/

/-- Build the resolved configuration for given roots/shell roots and
effective line length. -/
def buildCtx (env : Env) (o : ReadableOptions) (mll : Option Nat)
    (roots shellRoots : List Node) : Ctx :=
  { maxDepth := resolveMaxDepth o
    maxItems := resolveMaxItems o
    maxListItems := resolveMaxListItems o
    maxLineLength := mll
    lineLimit := resolveLineLimit o
    filterMode := resolveFilterMode o
    linksEnabled := resolveLinksEnabled o
    dedupeEnabled := resolveDedupeEnabled o
    dedupeWindow := resolveDedupeWindow o
    includeFooter := resolveIncludeFooter o
    includeShell := resolveIncludeShell o
    rootNids := roots.map Node.nid
    shellRootNids := shellRoots.map Node.nid
    win := env.win }

/-- Run the full extraction pipeline, returning the resolved configuration
and the final extraction state. -/
def runPipeline (env : Env) (o : ReadableOptions) : Ctx × St :=
  let sel : List Node × Option Nat × List Node :=
    match env.doc with
    | none => ([], resolveMaxLineLength0 o, [])
    | some doc =>
      let rl := selectRootsAndLimit doc o
      (rl.1, rl.2, selectShell doc (resolveIncludeShell o) rl.1)
  let roots := sel.1
  let mll := sel.2.1
  let shellRoots := sel.2.2
  let ctx := buildCtx env o mll roots shellRoots
  let s1 :=
    match env.doc with
    | some doc =>
      if ctx.includeShell && shellRoots.length > 0 then
        shellPass ctx doc shellRoots initSt
      else initSt
    | none => initSt
  let s2 :=
    match env.doc with
    | some doc => mainPass ctx doc roots s1
    | none => { s1 with walkMode := .mainW }
  let s3 := sweepLinks ctx roots s2
  let s4 := sweepShellLinks ctx shellRoots s3
  let s5 := fallbackPhase ctx roots s4
  let s6 := linkTablePhase ctx s5
  (ctx, s6)

/-- The result record (`ReadableResult`), with the `stats` fields inlined. -/
structure ReadableResult where
  text : String
  truncated : Bool
  statsLines : Nat
  statsMaxDepth : Nat
  statsItems : Nat
  links : List LinkEntry
deriving DecidableEq

/-- Source: `getReadableText` of the source. -/
def getReadableText (env : Env) (o : ReadableOptions) : ReadableResult :=
  let (ctx, s) := runPipeline env o
  { text := String.intercalate "\n" s.lines
    truncated := s.truncated
    statsLines := s.lines.length
    statsMaxDepth := ctx.maxDepth
    statsItems := s.itemCount
    links := s.linkList }

/-! ## Invariants and the step relation used by the verification -/

/-- List extension: `l'` is `l` with some suffix appended. -/
def listGrows {α : Type} (l l' : List α) : Prop := ∃ t, l' = l ++ t

/-- Line-length bound induced by the effective `maxLineLength` (the `max 1`
absorbs the degenerate limit `0`, which the resolved configuration never
produces). -/
def lineOk (ctx : Ctx) (l : String) : Prop :=
  match ctx.maxLineLength with
  | some m => slen l ≤ max 1 m
  | none => True

/-- Well-formedness of the link registry: references are `L1, L2, …` in
first-seen order, the counter equals the list length, and the map mirrors
the list. -/
def linkWF (s : St) : Prop :=
  s.linkList.map LinkEntry.ref =
    (List.range s.linkList.length).map (fun i => "L" ++ toString (i + 1)) ∧
  s.linkCounter = s.linkList.length ∧
  s.linkMap = s.linkList.map (fun e => (e.href, e.ref))

/-- The item-budget invariant: the item count never exceeds a finite
`maxItems`, truncation implies the cap was reached, and an infinite cap
never truncates. -/
def budgetInv (ctx : Ctx) (s : St) : Prop :=
  match ctx.maxItems with
  | some m => s.itemCount ≤ m ∧ (s.truncated = true → s.itemCount = m)
  | none => s.truncated = false

/-- Equality of all non-link state fields (link-registry operations change
nothing else). -/
def EmitEq (s s' : St) : Prop :=
  s'.lines = s.lines ∧ s'.itemCount = s.itemCount ∧
  s'.truncated = s.truncated ∧ s'.fingerprintWindow = s.fingerprintWindow ∧
  s'.fingerprintSet = s.fingerprintSet ∧ s'.shellMode = s.shellMode ∧
  s'.shellRemaining = s.shellRemaining ∧ s'.walkMode = s.walkMode

/-- The master step relation: every state transition of the algorithm grows
`lines`, `linkList` and `linkMap`, keeps new lines within the line-length
bound, and preserves the registry and budget invariants. -/
def Step (ctx : Ctx) (s s' : St) : Prop :=
  listGrows s.lines s'.lines ∧
  (∀ l, l ∈ s'.lines → l ∈ s.lines ∨ lineOk ctx l) ∧
  listGrows s.linkList s'.linkList ∧
  listGrows s.linkMap s'.linkMap ∧
  (linkWF s → linkWF s') ∧
  (budgetInv ctx s → budgetInv ctx s')

/-- A link-registry-only step: all other fields unchanged. -/
def RegStep (s s' : St) : Prop :=
  EmitEq s s' ∧ listGrows s.linkList s'.linkList ∧
  listGrows s.linkMap s'.linkMap ∧ (linkWF s → linkWF s')

/-! ## Concrete documents used by the verification -/

/-- Element-node constructor for concrete examples. -/
def mkEl (nid : Nat) (tag : String) (attrs : List (String × String))
    (innerText : String) (children : List Node) : Node :=
  .elemN nid tag attrs "" innerText "" false false (nlist children)

/-- Text-node constructor for concrete examples. -/
def mkTx (s : String) : Node := .textN s

/-- A filter widget: five buttons labeled Red/Green/Blue/Yellow/`+2 more`
after a `span` label, the first button pressed. -/
def c3doc : Node :=
  mkEl 1 "html" [] "Color\nRed\nGreen\nBlue\nYellow\n+2 more"
    [mkEl 2 "body" [] "Color\nRed\nGreen\nBlue\nYellow\n+2 more"
      [mkEl 3 "span" [] "Color" [mkTx "Color"],
       mkEl 4 "div" [] "Red\nGreen\nBlue\nYellow\n+2 more"
         [mkEl 5 "button" [("aria-pressed", "true")] "Red" [mkTx "Red"],
          mkEl 6 "button" [] "Green" [mkTx "Green"],
          mkEl 7 "button" [] "Blue" [mkTx "Blue"],
          mkEl 8 "button" [] "Yellow" [mkTx "Yellow"],
          mkEl 9 "button" [] "+2 more" [mkTx "+2 more"]]]]

/-- The same widget with a bare `+2` pseudo-item label. -/
def c3docB : Node :=
  mkEl 1 "html" [] "Color\nRed\nGreen\nBlue\nYellow\n+2"
    [mkEl 2 "body" [] "Color\nRed\nGreen\nBlue\nYellow\n+2"
      [mkEl 3 "span" [] "Color" [mkTx "Color"],
       mkEl 4 "div" [] "Red\nGreen\nBlue\nYellow\n+2"
         [mkEl 5 "button" [("aria-pressed", "true")] "Red" [mkTx "Red"],
          mkEl 6 "button" [] "Green" [mkTx "Green"],
          mkEl 7 "button" [] "Blue" [mkTx "Blue"],
          mkEl 8 "button" [] "Yellow" [mkTx "Yellow"],
          mkEl 9 "button" [] "+2" [mkTx "+2"]]]]

/-- Options selecting the compact filter mode. -/
def c3opts : ReadableOptions := { filterMode := some .compact }

/-- Two leaf divs whose text is the hashtag `#deals`. -/
def c9doc : Node :=
  mkEl 1 "html" [] "#deals\n#deals"
    [mkEl 2 "body" [] "#deals\n#deals"
      [mkEl 3 "div" [] "#deals" [mkTx "#deals"],
       mkEl 4 "div" [] "#deals" [mkTx "#deals"]]]

/-- A paragraph followed by an anchor with an external href. -/
def c10doc : Node :=
  mkEl 1 "html" [] "hello\nclick"
    [mkEl 2 "body" [] "hello\nclick"
      [mkEl 3 "p" [] "hello" [mkTx "hello"],
       mkEl 4 "a" [("href", "https://x")] "click" [mkTx "click"]]]

/-- One paragraph of 19 characters. -/
def c2doc : Node :=
  mkEl 1 "html" [] "aaaa bbbb cccc dddd"
    [mkEl 2 "body" [] "aaaa bbbb cccc dddd"
      [mkEl 3 "p" [] "aaaa bbbb cccc dddd" [mkTx "aaaa bbbb cccc dddd"]]]

/-- Two two-item lists. -/
def c7doc : Node :=
  mkEl 1 "html" [] "x\ny\nz\nw"
    [mkEl 2 "body" [] "x\ny\nz\nw"
      [mkEl 3 "ul" [] "x\ny"
        [mkEl 4 "li" [] "x" [mkTx "x"], mkEl 5 "li" [] "y" [mkTx "y"]],
       mkEl 6 "ul" [] "z\nw"
        [mkEl 7 "li" [] "z" [mkTx "z"], mkEl 8 "li" [] "w" [mkTx "w"]]]]

/-- The first list of `c7doc` on its own. -/
def c7ul : Node :=
  mkEl 3 "ul" [] "x\ny"
    [mkEl 4 "li" [] "x" [mkTx "x"], mkEl 5 "li" [] "y" [mkTx "y"]]

/-- A two-item list followed by a three-item list, so the two capped lists
leave distinct remaining counts. -/
def c7doc3 : Node :=
  mkEl 1 "html" [] "x\ny\nz\nw\nv"
    [mkEl 2 "body" [] "x\ny\nz\nw\nv"
      [mkEl 3 "ul" [] "x\ny"
        [mkEl 4 "li" [] "x" [mkTx "x"], mkEl 5 "li" [] "y" [mkTx "y"]],
       mkEl 6 "ul" [] "z\nw\nv"
        [mkEl 7 "li" [] "z" [mkTx "z"], mkEl 8 "li" [] "w" [mkTx "w"],
         mkEl 9 "li" [] "v" [mkTx "v"]]]]

/-- Default resolved configuration over an empty environment. -/
def tctx : Ctx := buildCtx ⟨none, true⟩ {} none [] []

/-- Resolved configuration with the smallest dedupe window. -/
def tctxW : Ctx := buildCtx ⟨none, true⟩ { dedupeWindow := some 5 } none [] []

/-- Resolved configuration with a one-item list cap. -/
def tctxL : Ctx := buildCtx ⟨none, true⟩ { maxListItems := some 1 } none [] []

/-- Feed a list of candidate lines to the emitter. -/
def runLines (ctx : Ctx) (ls : List String) (s : St) : St :=
  ls.foldl (fun st l => addLine ctx l none st) s

/-- Line sequence exhibiting the fingerprint window/set divergence: the
heading and the bulleted line share the fingerprint `# a`. -/
def c5seq : List String :=
  ["·# a", "# A", "f1", "f2", "f3", "f4", "f5", "f6", "f7", "f8", "f9", "·# a"]

/-- The `li` pairs of a list element. -/
def listItemPairs (el : Node) : List (Node × Option Node) :=
  (childrenWithPrev el.elemChildren).filter fun p => p.1.tag == "li"

end Readable

-- THEOREMS BELOW

namespace Readable

/-! ## Basic lemmas -/

theorem listGrows_refl {α : Type} (l : List α) : listGrows l l := ⟨[], by simp⟩

theorem listGrows_trans {α : Type} {a b c : List α}
    (h1 : listGrows a b) (h2 : listGrows b c) : listGrows a c := by
  obtain ⟨t1, rfl⟩ := h1
  obtain ⟨t2, rfl⟩ := h2
  exact ⟨t1 ++ t2, by simp⟩

theorem listGrows_app {α : Type} (l t : List α) : listGrows l (l ++ t) :=
  ⟨t, rfl⟩

theorem slen_append (a b : String) : slen (a ++ b) = slen a + slen b := by
  simp [slen, String.toList, String.append]

theorem slen_mk (cs : List Char) : slen (String.mk cs) = cs.length := rfl

/-- Dropping a while-prefix never lengthens a list. -/
theorem dropWhileLengthLe (p : Char → Bool) :
    ∀ l : List Char, (l.dropWhile p).length ≤ l.length := by
  intro l
  induction l with
  | nil => simp
  | cons a tl ih =>
    rw [List.dropWhile_cons]
    split
    · exact le_trans ih (by simp)
    · simp

/-- The head of a dropped-while list fails the predicate. -/
theorem dropWhileHeadNot (p : Char → Bool) :
    ∀ (l : List Char) (c : Char), (l.dropWhile p).head? = some c → p c = false := by
  intro l
  induction l with
  | nil => intro c h; simp at h
  | cons a tl ih =>
    intro c h
    rw [List.dropWhile_cons] at h
    by_cases hp : p a
    · rw [if_pos hp] at h
      exact ih c h
    · rw [if_neg hp] at h
      simp at h
      rw [← h]
      simpa using hp

theorem jsTrimRightL_length_le (cs : List Char) :
    (jsTrimRightL cs).length ≤ cs.length := by
  have := dropWhileLengthLe jsIsWs cs.reverse
  simpa [jsTrimRightL] using this

/-- The right-trim of a list never ends in whitespace. -/
theorem jsTrimRightL_getLast_not_ws (cs : List Char) (c : Char)
    (h : (jsTrimRightL cs).getLast? = some c) : jsIsWs c = false := by
  unfold jsTrimRightL at h
  rw [List.getLast?_reverse] at h
  exact dropWhileHeadNot jsIsWs cs.reverse c h

/-- Source: `trimLine` respects the line-length bound. -/
theorem trimLine_le (m : Nat) (t : String) :
    slen (trimLine (some m) t) ≤ max 1 m := by
  show slen (if slen t ≤ m then t
    else String.mk (jsTrimRightL (t.toList.take (m - 1))) ++ "…") ≤ max 1 m
  split
  · next h => exact le_trans h (le_max_right 1 m)
  · next h =>
    rw [slen_append]
    have h1 : slen (String.mk (jsTrimRightL (t.toList.take (m - 1)))) ≤ m - 1 := by
      rw [slen_mk]
      exact le_trans (jsTrimRightL_length_le _) (by simp [List.length_take])
    have h2 : slen "…" = 1 := rfl
    omega

/-- Disabling the limit never rewrites a line. -/
theorem trimLine_disabled (t : String) : trimLine none t = t := rfl

/-- A line within the limit is untouched. -/
theorem trimLine_short (m : Nat) (t : String) (h : slen t ≤ m) :
    trimLine (some m) t = t := by
  show (if slen t ≤ m then t
    else String.mk (jsTrimRightL (t.toList.take (m - 1))) ++ "…") = t
  simp [h]

/-- A long line is cut at `m - 1` characters, right-trimmed, and terminated
with an ellipsis. -/
theorem trimLine_long (m : Nat) (t : String) (h : ¬ slen t ≤ m) :
    (trimLine (some m) t).toList =
      jsTrimRightL (t.toList.take (m - 1)) ++ ['…'] := by
  show (if slen t ≤ m then t
    else String.mk (jsTrimRightL (t.toList.take (m - 1))) ++ "…").toList = _
  rw [if_neg h]
  simp [String.toList, String.append]

/-- A shortened line ends with the ellipsis character. -/
theorem trimLine_long_ellipsis (m : Nat) (t : String) (h : ¬ slen t ≤ m) :
    (trimLine (some m) t).toList.getLast? = some '…' := by
  rw [trimLine_long m t h]
  simp

/-- In a shortened line, the character before the final ellipsis (when one
exists) is not whitespace: trailing whitespace was trimmed first. -/
theorem trimLine_long_trimmed (m : Nat) (t : String) (h : ¬ slen t ≤ m)
    (c : Char)
    (hc : (trimLine (some m) t).toList.dropLast.getLast? = some c) :
    jsIsWs c = false := by
  rw [trimLine_long m t h] at hc
  rw [List.dropLast_concat] at hc
  exact jsTrimRightL_getLast_not_ws _ c hc

theorem stepRefl (ctx : Ctx) (s : St) : Step ctx s s :=
  ⟨listGrows_refl _, fun _ hl => Or.inl hl, listGrows_refl _, listGrows_refl _,
   id, id⟩

theorem stepTrans {ctx : Ctx} {a b c : St}
    (h1 : Step ctx a b) (h2 : Step ctx b c) : Step ctx a c := by
  obtain ⟨g1, n1, k1, m1, w1, b1⟩ := h1
  obtain ⟨g2, n2, k2, m2, w2, b2⟩ := h2
  refine ⟨listGrows_trans g1 g2, ?_, listGrows_trans k1 k2,
    listGrows_trans m1 m2, fun h => w2 (w1 h), fun h => b2 (b1 h)⟩
  intro l hl
  rcases n2 l hl with h | h
  · exact n1 l h
  · exact Or.inr h

theorem regStepRefl (s : St) : RegStep s s :=
  ⟨⟨rfl, rfl, rfl, rfl, rfl, rfl, rfl, rfl⟩, listGrows_refl _, listGrows_refl _,
   id⟩

theorem regStepTrans {a b c : St} (h1 : RegStep a b) (h2 : RegStep b c) :
    RegStep a c := by
  obtain ⟨⟨e1, e2, e3, e4, e5, e6, e7, e8⟩, k1, m1, w1⟩ := h1
  obtain ⟨⟨f1, f2, f3, f4, f5, f6, f7, f8⟩, k2, m2, w2⟩ := h2
  exact ⟨⟨f1.trans e1, f2.trans e2, f3.trans e3, f4.trans e4, f5.trans e5,
    f6.trans e6, f7.trans e7, f8.trans e8⟩, listGrows_trans k1 k2,
    listGrows_trans m1 m2, fun h => w2 (w1 h)⟩

/-- A state that differs only in the link-registry fields is emit-equal. -/
theorem emitEq_record (s : St) (lm : List (String × String))
    (ll : List LinkEntry) (lc : Nat) :
    EmitEq s { s with linkMap := lm, linkList := ll, linkCounter := lc } :=
  ⟨rfl, rfl, rfl, rfl, rfl, rfl, rfl, rfl⟩

theorem regStep_step {ctx : Ctx} {s s' : St} (h : RegStep s s') :
    Step ctx s s' := by
  obtain ⟨⟨e1, e2, e3, e4, e5, e6, e7, e8⟩, k, m, w⟩ := h
  refine ⟨e1 ▸ listGrows_refl _, ?_, k, m, w, ?_⟩
  · intro l hl
    rw [e1] at hl
    exact Or.inl hl
  · intro hb
    unfold budgetInv at hb ⊢
    cases hmi : ctx.maxItems with
    | none => rw [hmi] at hb; simp only [e3, hb]
    | some mo => rw [hmi] at hb; exact ⟨e2 ▸ hb.1, fun ht => e2 ▸ hb.2 (e3 ▸ ht)⟩

/-! ## Lemmas about the emission engine `addLine` -/

/-- Once truncated, `addLine` is the identity: no line is ever appended. -/
theorem addLine_truncated (ctx : Ctx) (line : String) (ref : Option String)
    (s : St) (h : s.truncated = true) : addLine ctx line ref s = s := by
  unfold addLine
  simp [h]

/-- A candidate whose cleaned text is empty is dropped silently. -/
theorem addLine_empty (ctx : Ctx) (line : String) (ref : Option String)
    (s : St) (h : normalizeBullets (cleanText line) = "") :
    addLine ctx line ref s = s := by
  unfold addLine
  split
  · rfl
  split
  · rfl
  simp [h]

/-- With dedup enabled, a non-heading candidate whose fingerprint is in the
membership set is dropped silently. -/
theorem addLine_dedup_drop (ctx : Ctx) (line : String) (ref : Option String)
    (s : St) (htr : s.truncated = false)
    (hded : ctx.dedupeEnabled = true)
    (hhead : strStartsWith (normalizeBullets (cleanText line)) "#" = false)
    (hmem : s.fingerprintSet.contains
      (fingerprintLine (normalizeBullets (cleanText line))) = true) :
    addLine ctx line ref s = s := by
  unfold addLine
  simp only [htr, Bool.false_eq_true, if_false]
  split
  · rfl
  simp only [hded, hhead, hmem, Bool.not_false, Bool.true_and, Bool.and_true,
    Bool.and_self]
  split
  · rfl
  simp

/-- When the candidate passes the earlier guards and the item budget is
exhausted, `addLine` only sets `truncated` — the budget check is the single
path that raises the flag. -/
theorem addLine_sets_truncated (ctx : Ctx) (line : String)
    (ref : Option String) (s : St) (htr : s.truncated = false)
    (hsh : (s.shellMode && s.shellRemaining == 0) = false)
    (hne : normalizeBullets (cleanText line) ≠ "")
    (hded : (ctx.dedupeEnabled &&
      !strStartsWith (normalizeBullets (cleanText line)) "#" &&
      s.fingerprintSet.contains
        (fingerprintLine (normalizeBullets (cleanText line)))) = false)
    (hbud : itemBudgetReached ctx.maxItems s.itemCount = true) :
    addLine ctx line ref s = { s with truncated := true } := by
  unfold addLine
  simp only [htr, hsh, Bool.false_eq_true, if_false]
  rw [if_neg hne]
  simp only [hded, Bool.false_eq_true, if_false]
  simp [hbud]

/-- The push equation: when every guard passes, `addLine` appends exactly
the trimmed decorated cleaned line, bumps the counters, and updates the
fingerprint window. -/
theorem addLine_push (ctx : Ctx) (line : String) (ref : Option String)
    (s : St) (htr : s.truncated = false)
    (hsh : (s.shellMode && s.shellRemaining == 0) = false)
    (hne : normalizeBullets (cleanText line) ≠ "")
    (hded : (ctx.dedupeEnabled &&
      !strStartsWith (normalizeBullets (cleanText line)) "#" &&
      s.fingerprintSet.contains
        (fingerprintLine (normalizeBullets (cleanText line)))) = false)
    (hbud : itemBudgetReached ctx.maxItems s.itemCount = false) :
    addLine ctx line ref s =
      (let cleaned := normalizeBullets (cleanText line)
       let fingerprint := fingerprintLine cleaned
       let s1 :=
        { s with
          lines := s.lines ++ [trimLine ctx.maxLineLength
            (decorateLine cleaned ref)],
          itemCount := s.itemCount + 1,
          shellRemaining :=
            if s.shellMode then s.shellRemaining - 1 else s.shellRemaining }
       if ctx.dedupeEnabled then
        let set1 := setAdd s1.fingerprintSet fingerprint
        let win1 := s1.fingerprintWindow ++ [fingerprint]
        if win1.length > ctx.dedupeWindow then
          match win1 with
          | [] => { s1 with fingerprintSet := set1, fingerprintWindow := [] }
          | removed :: rest =>
            { s1 with
              fingerprintWindow := rest,
              fingerprintSet :=
                if removed ≠ "" then setDel set1 removed else set1 }
        else { s1 with fingerprintSet := set1, fingerprintWindow := win1 }
       else s1) := by
  unfold addLine
  simp only [htr, hsh, Bool.false_eq_true, if_false]
  rw [if_neg hne]
  simp only [hded, hbud, Bool.false_eq_true, if_false]

/-- Every `addLine` transition satisfies the master step relation. -/
theorem step_addLine (ctx : Ctx) (line : String) (ref : Option String)
    (s : St) : Step ctx s (addLine ctx line ref s) := by
  by_cases htr : s.truncated = true
  · rw [addLine_truncated ctx line ref s htr]
    exact stepRefl ctx s
  have htr' : s.truncated = false := by simpa using htr
  by_cases hsh : (s.shellMode && s.shellRemaining == 0) = true
  · have heq : addLine ctx line ref s = s := by
      unfold addLine
      simp only [htr', Bool.false_eq_true, if_false]
      rw [if_pos hsh]
    rw [heq]
    exact stepRefl ctx s
  have hsh' : (s.shellMode && s.shellRemaining == 0) = false := by
    simpa using hsh
  by_cases hne : normalizeBullets (cleanText line) = ""
  · rw [addLine_empty ctx line ref s hne]
    exact stepRefl ctx s
  by_cases hded : (ctx.dedupeEnabled &&
      !strStartsWith (normalizeBullets (cleanText line)) "#" &&
      s.fingerprintSet.contains
        (fingerprintLine (normalizeBullets (cleanText line)))) = true
  · have hd := hded
    simp only [Bool.and_eq_true, Bool.not_eq_true'] at hd
    rw [addLine_dedup_drop ctx line ref s htr' hd.1.1 hd.1.2 hd.2]
    exact stepRefl ctx s
  have hded' : (ctx.dedupeEnabled &&
      !strStartsWith (normalizeBullets (cleanText line)) "#" &&
      s.fingerprintSet.contains
        (fingerprintLine (normalizeBullets (cleanText line)))) = false := by
    simpa using hded
  by_cases hbud : itemBudgetReached ctx.maxItems s.itemCount = true
  · rw [addLine_sets_truncated ctx line ref s htr' hsh' hne hded' hbud]
    refine ⟨listGrows_refl _, fun _ hl => Or.inl hl, listGrows_refl _,
      listGrows_refl _, fun h => h, ?_⟩
    intro hb
    unfold budgetInv at hb ⊢
    cases hmi : ctx.maxItems with
    | none => rw [hmi] at hbud; simp [itemBudgetReached] at hbud
    | some m =>
      rw [hmi] at hb hbud
      simp only [itemBudgetReached, decide_eq_true_eq] at hbud
      exact ⟨hb.1, fun _ => le_antisymm hb.1 hbud⟩
  have hbud' : itemBudgetReached ctx.maxItems s.itemCount = false := by
    simpa using hbud
  rw [addLine_push ctx line ref s htr' hsh' hne hded' hbud']
  have hlineok : lineOk ctx (trimLine ctx.maxLineLength
      (decorateLine (normalizeBullets (cleanText line)) ref)) := by
    unfold lineOk
    cases hml : ctx.maxLineLength with
    | none => trivial
    | some m => exact trimLine_le m _
  have key : ∀ fs fw : List String, Step ctx s
      { s with
        lines := s.lines ++ [trimLine ctx.maxLineLength
          (decorateLine (normalizeBullets (cleanText line)) ref)],
        itemCount := s.itemCount + 1,
        shellRemaining :=
          if s.shellMode then s.shellRemaining - 1 else s.shellRemaining,
        fingerprintSet := fs, fingerprintWindow := fw } := by
    intro fs fw
    refine ⟨listGrows_app _ _, ?_, listGrows_refl _, listGrows_refl _,
      fun h => h, ?_⟩
    · intro l hl
      rcases List.mem_append.mp hl with h | h
      · exact Or.inl h
      · simp only [List.mem_singleton] at h
        exact Or.inr (h ▸ hlineok)
    · intro hb
      unfold budgetInv at hb ⊢
      cases hmi : ctx.maxItems with
      | none => rw [hmi] at hb; simpa using hb
      | some m =>
        rw [hmi] at hb hbud'
        simp only [itemBudgetReached, decide_eq_false_iff_not] at hbud'
        refine ⟨?_, ?_⟩
        · show s.itemCount + 1 ≤ m
          omega
        · intro hcon
          have hcon' : s.truncated = true := hcon
          rw [htr'] at hcon'
          exact absurd hcon' (by simp)
  dsimp only
  split
  · split
    · split
      · exact key _ _
      · exact key _ _
    · exact key _ _
  · exact key _ _
/-! ## Lemmas about the link registry -/

/-- Source: `List.lookup` distributes over append. -/
theorem lookupAppend (k : String) (l1 l2 : List (String × String)) :
    (l1 ++ l2).lookup k =
      (match l1.lookup k with
       | some v => some v
       | none => l2.lookup k) := by
  induction l1 with
  | nil => simp [List.lookup]
  | cons a t ih =>
    rcases a with ⟨ka, va⟩
    simp only [List.cons_append, List.lookup]
    split
    · rfl
    · exact ih

/-- Every `registerLink` transition is a pure registry step preserving the
registry invariant. -/
theorem regStep_registerLink (u : String) (s : St) :
    RegStep s (registerLink u s).2 := by
  unfold registerLink
  dsimp only
  split
  · exact regStepRefl s
  split
  · exact regStepRefl s
  next hlook =>
  dsimp only
  have hwfpres : linkWF s → linkWF
      { s with
        linkMap := s.linkMap ++
          [(jsTrim u, "L" ++ toString (s.linkCounter + 1))],
        linkList := s.linkList ++
          [⟨"L" ++ toString (s.linkCounter + 1), jsTrim u⟩],
        linkCounter := s.linkCounter + 1 } := by
    intro hwf
    obtain ⟨w1, w2, w3⟩ := hwf
    have p1 : (s.linkList ++
        [(⟨"L" ++ toString (s.linkCounter + 1), jsTrim u⟩ : LinkEntry)]).map
          LinkEntry.ref =
        (List.range (s.linkList ++
          [(⟨"L" ++ toString (s.linkCounter + 1), jsTrim u⟩ : LinkEntry)]).length).map
          (fun i => "L" ++ toString (i + 1)) := by
      rw [List.map_append, w1, w2]
      simp [List.range_succ]
    have p2 : s.linkCounter + 1 = (s.linkList ++
        [(⟨"L" ++ toString (s.linkCounter + 1), jsTrim u⟩ : LinkEntry)]).length := by
      simp [w2]
    have p3 : s.linkMap ++ [(jsTrim u, "L" ++ toString (s.linkCounter + 1))] =
        (s.linkList ++
          [(⟨"L" ++ toString (s.linkCounter + 1), jsTrim u⟩ : LinkEntry)]).map
          (fun e => (e.href, e.ref)) := by
      rw [List.map_append, w3]
      rfl
    exact ⟨p1, p2, p3⟩
  exact ⟨emitEq_record s _ _ _, listGrows_app _ _, listGrows_app _ _, hwfpres⟩

/-- Registering the same URL again returns the same reference and leaves
the state unchanged. -/
theorem registerLink_idem (u : String) (s : St) :
    registerLink u (registerLink u s).2 =
      ((registerLink u s).1, (registerLink u s).2) := by
  by_cases hrej : (decide (jsTrim u = "") ||
      strStartsWith (jsTrim u) "javascript:" || strStartsWith (jsTrim u) "#" ||
      strStartsWith (jsTrim u) "data:" ||
      strStartsWith (jsTrim u) "blob:") = true
  · have h1 : registerLink u s = (none, s) := by
      unfold registerLink
      dsimp only
      rw [if_pos hrej]
    rw [h1]
    dsimp only
    exact h1
  · cases hlook : s.linkMap.lookup (jsTrim u) with
    | some r =>
      have h1 : registerLink u s = (some ("@" ++ r), s) := by
        unfold registerLink
        dsimp only
        rw [if_neg hrej, hlook]
      rw [h1]
      dsimp only
      exact h1
    | none =>
      have h1 : registerLink u s =
          (some ("@" ++ ("L" ++ toString (s.linkCounter + 1))),
           { s with
             linkCounter := s.linkCounter + 1,
             linkMap := s.linkMap ++
               [(jsTrim u, "L" ++ toString (s.linkCounter + 1))],
             linkList := s.linkList ++
               [⟨"L" ++ toString (s.linkCounter + 1), jsTrim u⟩] }) := by
        unfold registerLink
        dsimp only
        rw [if_neg hrej, hlook]
      rw [h1]
      dsimp only
      unfold registerLink
      dsimp only
      rw [if_neg hrej]
      have hl2 : ((s.linkMap ++
          [(jsTrim u, "L" ++ toString (s.linkCounter + 1))]).lookup
            (jsTrim u)) = some ("L" ++ toString (s.linkCounter + 1)) := by
        rw [lookupAppend, hlook]
        simp [List.lookup]
      rw [hl2]

/-- Source: `getLinkRef` is a pure registry step. -/
theorem regStep_getLinkRef (ctx : Ctx) (el : Node) (s : St) :
    RegStep s (getLinkRef ctx el s).2 := by
  unfold getLinkRef
  split
  · exact regStepRefl s
  · split
    · try dsimp only
      split
      · exact regStepRefl s
      · exact regStep_registerLink _ s
    · try dsimp only
      split
      · exact regStepRefl s
      · try dsimp only
        split
        · exact regStepRefl s
        · exact regStep_registerLink _ s

/-! ## Generic fold propagation -/

/-- A reflexive-transitive relation on states propagates through any fold
whose steps respect it. -/
theorem rel_foldl {α β : Type} (R : St → St → Prop)
    (hrefl : ∀ s, R s s) (htrans : ∀ {a b c : St}, R a b → R b c → R a c)
    (g : β → St) (f : β → α → β) (hf : ∀ b a, R (g b) (g (f b a))) :
    ∀ (l : List α) (b : β), R (g b) (g (l.foldl f b)) := by
  intro l
  induction l with
  | nil => intro b; exact hrefl (g b)
  | cons a t ih => intro b; exact htrans (hf b a) (ih (f b a))

/-! ## Registry steps of the inline-text collectors -/

mutual
/-- Source: `collectInlineText` only touches the link registry. -/
theorem regStep_collectText (ctx : Ctx) :
    ∀ (n : Node) (s : St), RegStep s (collectInlineText ctx n s).2
  | .textN c, s => by
    simpa [collectInlineText] using regStepRefl s
  | .elemN nid tag attrs cn it cs dn vh ch, s => by
    have h := regStep_collectParts ctx ch s
    simp only [collectInlineText]
    rcases hp : collectInlineParts ctx ch s with ⟨parts, s'⟩
    rw [hp] at h
    simpa using h
/-- The child loop of `collectInlineText` only touches the link registry. -/
theorem regStep_collectParts (ctx : Ctx) :
    ∀ (l : NodeList) (s : St), RegStep s (collectInlineParts ctx l s).2
  | .nil, s => by simpa [collectInlineParts] using regStepRefl s
  | .cons node tl, s => by
    cases node with
    | textN c =>
      have h := regStep_collectParts ctx tl s
      simp only [collectInlineParts]
      rcases hp : collectInlineParts ctx tl s with ⟨parts, s'⟩
      rw [hp] at h
      simpa using h
    | elemN nid tag attrs cn it cs dn vh ch =>
      simp only [collectInlineParts]
      split
      · exact regStep_collectParts ctx tl s
      split
      · split
        · exact regStep_collectParts ctx tl s
        · have h1 := regStep_getLinkRef ctx (.elemN nid tag attrs cn it cs dn vh ch) s
          rcases hg : getLinkRef ctx (.elemN nid tag attrs cn it cs dn vh ch) s
            with ⟨linkRef, s1⟩
          rw [hg] at h1
          have h2 := regStep_collectParts ctx tl s1
          rcases hp : collectInlineParts ctx tl s1 with ⟨parts, s2⟩
          rw [hp] at h2
          simp only [hg, hp]
          exact regStepTrans h1 h2
      split
      · exact regStep_collectParts ctx tl s
      split
      · exact regStep_collectParts ctx tl s
      split
      · exact regStep_collectParts ctx tl s
      · have h1 := regStep_collectText ctx (.elemN nid tag attrs cn it cs dn vh ch) s
        rcases ht : collectInlineText ctx (.elemN nid tag attrs cn it cs dn vh ch) s
          with ⟨t, s1⟩
        rw [ht] at h1
        have h2 := regStep_collectParts ctx tl s1
        rcases hp : collectInlineParts ctx tl s1 with ⟨parts, s2⟩
        rw [hp] at h2
        simp only [ht, hp]
        exact regStepTrans h1 h2
end

/-- Source: `extractInlineText` only touches the link registry. -/
theorem regStep_extract (ctx : Ctx) (el : Node) (s : St) :
    RegStep s (extractInlineText ctx el s).2 := by
  unfold extractInlineText
  have h := regStep_collectText ctx el s
  rcases hp : collectInlineText ctx el s with ⟨t, s'⟩
  rw [hp] at h
  simpa using h

/-! ## Registry steps of the filter-group machinery -/

/-- Source: `firstLabel` only performs registry steps when its step function does. -/
theorem regStep_firstLabel (step : Node → St → Option String × St)
    (hstep : ∀ n st, RegStep st (step n st).2) (nodes : List Node) (s : St) :
    RegStep s (firstLabel step nodes s).2 := by
  unfold firstLabel
  refine rel_foldl (fun a b => RegStep a b) regStepRefl
    (fun h1 h2 => regStepTrans h1 h2) Prod.snd _ ?_ nodes ((none, s))
  intro b a
  rcases b with ⟨r, st⟩
  cases r with
  | some l => exact regStepRefl st
  | none => exact hstep a st

theorem regStep_labelStepTagged (ctx : Ctx) (child : Node) (st : St) :
    RegStep st (labelStepTagged ctx child st).2 := by
  unfold labelStepTagged
  try dsimp only
  split
  · split
    · exact regStep_extract ctx child st
    · exact regStep_extract ctx child st
  · exact regStepRefl st

theorem regStep_labelStepPlain (ctx : Ctx) (limit : Nat) (node : Node)
    (st : St) : RegStep st (labelStepPlain ctx limit node st).2 := by
  unfold labelStepPlain
  try dsimp only
  split
  · exact regStepRefl st
  split
  · exact regStepRefl st
  · split
    · exact regStep_extract ctx node st
    · exact regStep_extract ctx node st

/-- Source: `findGroupLabel` is a pure registry step. -/
theorem regStep_findGroupLabel (ctx : Ctx) (el : Node) (prevSib : Option Node)
    (s : St) : RegStep s (findGroupLabel ctx el prevSib s).2 := by
  unfold findGroupLabel
  try dsimp only
  split
  · exact regStepRefl s
  · have h1 := regStep_firstLabel (labelStepTagged ctx)
      (regStep_labelStepTagged ctx) el.elemChildren s
    have h2 := regStep_firstLabel (labelStepPlain ctx 30)
      (regStep_labelStepPlain ctx 30) el.elemChildren
      (firstLabel (labelStepTagged ctx) el.elemChildren s).2
    have h3 := regStep_firstLabel (labelStepPlain ctx 30)
      (regStep_labelStepPlain ctx 30) (qsa el selAny)
      (firstLabel (labelStepPlain ctx 30) el.elemChildren
        (firstLabel (labelStepTagged ctx) el.elemChildren s).2).2
    split
    · exact h1
    · split
      · exact regStepTrans h1 h2
      · split
        · exact regStepTrans h1 (regStepTrans h2 h3)
        · split
          · next prev =>
            exact regStepTrans h1 (regStepTrans h2 (regStepTrans h3
              (regStep_labelStepPlain ctx 30 prev _)))
          · exact regStepTrans h1 (regStepTrans h2 h3)

/-- Source: `extractChipTexts` is a pure registry step. -/
theorem regStep_extractChipTexts (ctx : Ctx) (chips : List Node) (s : St) :
    RegStep s (extractChipTexts ctx chips s).2 := by
  unfold extractChipTexts
  refine rel_foldl (fun a b => RegStep a b) regStepRefl
    (fun h1 h2 => regStepTrans h1 h2) Prod.snd _ ?_ chips (([], s))
  intro b a
  exact regStep_extract ctx a b.2

/-- Source: `extractFilterGroup` is a pure registry step. -/
theorem regStep_extractFilterGroup (ctx : Ctx) (el : Node)
    (prevSib : Option Node) (s : St) :
    RegStep s (extractFilterGroup ctx el prevSib s).2 := by
  unfold extractFilterGroup
  try dsimp only
  split
  · exact regStepRefl s
  split
  · exact regStepRefl s
  split
  · exact regStepRefl s
  split
  · exact regStepRefl s
  · have h1 := regStep_findGroupLabel ctx el prevSib s
    have h2 := regStep_extractChipTexts ctx
      ((qsa el selClickable).filter fun n => n.isElem && !isHidden ctx n)
      (findGroupLabel ctx el prevSib s).2
    have h3 := regStep_extractChipTexts ctx
      (((qsa el selClickable).filter fun n =>
        n.isElem && !isHidden ctx n).filter isActiveChip)
      (extractChipTexts ctx
        ((qsa el selClickable).filter fun n => n.isElem && !isHidden ctx n)
        (findGroupLabel ctx el prevSib s).2).2
    split
    · exact h1
    · split
      · exact h1
      split
      · exact regStepTrans h1 h2
      split
      · exact regStepTrans h1 h2
      · exact regStepTrans h1 (regStepTrans h2 h3)

/-- Source: `emitHiddenHeading` satisfies the step relation. -/
theorem step_emitHiddenHeading (ctx : Ctx) (el : Node) (s : St) :
    Step ctx s (emitHiddenHeading ctx el s).2 := by
  unfold emitHiddenHeading
  split
  · exact stepRefl ctx s
  split
  · exact stepRefl ctx s
  · try dsimp only
    split
    · exact stepRefl ctx s
    · exact step_addLine ctx _ none s

/-! ## Step propagation through the tree walk -/

/-- Branching combinator: a step to either arm of a conditional is a step to
the conditional. -/
theorem stepIte (ctx : Ctx) (c : Prop) [Decidable c] (t a b : St)
    (h1 : Step ctx t a) (h2 : Step ctx t b) :
    Step ctx t (if c then a else b) := by
  split
  · exact h1
  · exact h2

/-- The early-exit walk loop propagates the step relation. -/
theorem step_walkItemsLoop (ctx : Ctx) (wc : Node → Option Node → St → St)
    (hwc : ∀ c pv st, Step ctx st (wc c pv st)) :
    ∀ (pairs : List (Node × Option Node)) (s : St),
      Step ctx s (walkItemsLoop wc pairs s)
  | [], s => stepRefl ctx s
  | (c, pv) :: rest, s => by
    unfold walkItemsLoop
    try dsimp only
    exact stepIte ctx _ _ _ _ (hwc c pv s)
      (stepTrans (hwc c pv s) (step_walkItemsLoop ctx wc hwc rest _))

/-- Source: `handleListWith` propagates the step relation. -/
theorem step_handleListWith (ctx : Ctx) (wc : Node → Option Node → St → St)
    (hwc : ∀ c pv st, Step ctx st (wc c pv st)) (el : Node) (ld : Nat)
    (s : St) : Step ctx s (handleListWith ctx wc el ld s) := by
  unfold handleListWith
  try dsimp only
  exact stepIte ctx _ _ _ _ (step_walkItemsLoop ctx wc hwc _ s)
    (stepIte ctx _ _ _ _
      (stepTrans (step_walkItemsLoop ctx wc hwc _ s)
        (step_addLine ctx _ none _))
      (step_walkItemsLoop ctx wc hwc _ s))

/-- Step fact for the optional registration of a media source. -/
theorem step_srcRegister (ctx : Ctx) (u : String) (t : St) :
    Step ctx t ((if u ≠ "" then registerLink u t else (none, t)).2) := by
  split
  · exact regStep_step (regStep_registerLink u t)
  · exact stepRefl ctx t

/-- The figure branch propagates the step relation. -/
theorem step_walkFigurePart (ctx : Ctx) (el : Node) (s : St) :
    Step ctx s (walkFigurePart ctx el s) := by
  unfold walkFigurePart
  cases hq : qs el (selTag "figcaption") with
  | some c =>
    try dsimp only
    exact stepTrans (stepTrans (regStep_step (regStep_extract ctx c s))
        (step_srcRegister ctx _ _))
      (stepIte ctx _ _ _ _ (step_addLine ctx _ _ _) (stepRefl ctx _))
  | none =>
    try dsimp only
    exact stepTrans (step_srcRegister ctx _ s)
      (stepIte ctx _ _ _ _ (step_addLine ctx _ _ _) (stepRefl ctx _))

/-- The li branch propagates the step relation. -/
theorem step_walkLiPart (ctx : Ctx) (wc : Node → Option Node → St → St)
    (hwc : ∀ c pv st, Step ctx st (wc c pv st)) (el : Node) (ld : Nat)
    (s : St) : Step ctx s (walkLiPart ctx wc el ld s) := by
  unfold walkLiPart
  try dsimp only
  have h1 : Step ctx s (getLinkRef ctx el (extractInlineText ctx el s).2).2 :=
    stepTrans (regStep_step (regStep_extract ctx el s))
      (regStep_step (regStep_getLinkRef ctx el _))
  have hfold : ∀ t : St, Step ctx t
      (((childrenWithPrev el.elemChildren).filter fun p =>
        p.1.tag == "ul" || p.1.tag == "ol").foldl
        (fun st cp => wc cp.1 cp.2 st) t) := by
    intro t
    exact rel_foldl (Step ctx) (stepRefl ctx) (fun ha hb => stepTrans ha hb)
      id (fun (st : St) (cp : Node × Option Node) => wc cp.1 cp.2 st)
      (fun (b : St) (a : Node × Option Node) => hwc a.1 a.2 b) _ t
  exact stepTrans (stepTrans h1
      (stepIte ctx _ _ _ _ (step_addLine ctx _ _ _) (stepRefl ctx _)))
    (hfold _)

/-- The walk tail (standalone button/anchor, leaf text, or recursion into
children) propagates the step relation. -/
theorem step_walkAfterPart (ctx : Ctx) (wc : Node → Option Node → St → St)
    (hwc : ∀ c pv st, Step ctx st (wc c pv st)) (el : Node) (anc : List Node)
    (ld : Nat) (s3 : St) : Step ctx s3 (walkAfterPart ctx wc el anc ld s3) := by
  unfold walkAfterPart
  try dsimp only
  refine stepIte ctx _ _ _ _ ?b1
    (stepIte ctx _ _ _ _ ?b2 (step_walkItemsLoop ctx wc hwc _ s3))
  case b1 =>
    exact stepTrans (stepTrans (regStep_step (regStep_extract ctx el s3))
        (regStep_step (regStep_getLinkRef ctx el _)))
      (stepIte ctx _ _ _ _ (step_addLine ctx _ _ _) (stepRefl ctx _))
  case b2 =>
    exact stepIte ctx _ _ _ _
      (stepTrans (regStep_step (regStep_getLinkRef ctx el s3))
        (step_addLine ctx _ _ _))
      (stepRefl ctx s3)

/-- The post-filter-group dispatch propagates the step relation. -/
theorem step_walkRestPart (ctx : Ctx) (wc : Node → Option Node → St → St)
    (hwc : ∀ c pv st, Step ctx st (wc c pv st)) (el : Node) (anc : List Node)
    (ld : Nat) (s2 : St) : Step ctx s2 (walkRestPart ctx wc el anc ld s2) := by
  unfold walkRestPart
  try dsimp only
  refine stepIte ctx _ _ _ _ ?c1 (stepIte ctx _ _ _ _ ?c2
    (stepIte ctx _ _ _ _ ?c3 (step_walkAfterPart ctx wc hwc el anc ld s2)))
  case c1 =>
    exact stepTrans (regStep_step (regStep_getLinkRef ctx el s2))
      (stepIte ctx _ _ _ _ (step_addLine ctx _ _ _) (stepRefl ctx _))
  case c2 =>
    exact stepTrans (regStep_step (regStep_extract ctx el s2))
      (stepIte ctx _ _ _ _ (step_addLine ctx _ none _) (stepRefl ctx _))
  case c3 =>
    refine stepIte ctx _ _ _ _ (step_walkAfterPart ctx wc hwc el anc ld s2)
      (stepIte ctx _ _ _ _ ?c4 (step_walkAfterPart ctx wc hwc el anc ld s2))
    case c4 =>
      exact stepTrans (regStep_step (regStep_extract ctx el s2))
        (stepIte ctx _ _ _ _ (step_addLine ctx _ none _)
          (step_walkAfterPart ctx wc hwc el anc ld _))

/-- The whole recursive walk propagates the step relation. -/
theorem step_walkF (ctx : Ctx) (gas : Nat) :
    ∀ (el : Node) (anc : List Node) (pv : Option Node) (ld : Nat) (s : St),
      Step ctx s (walkF ctx gas el anc pv ld s) := by
  induction gas with
  | zero =>
    intro el anc pv ld s
    rw [walkF.eq_def]
    try dsimp only
    exact stepIte ctx _ _ _ _ (stepRefl ctx s) (stepRefl ctx s)
  | succ gas' ih =>
    intro el anc pv ld s
    rw [walkF.eq_def]
    try dsimp only
    refine stepIte ctx _ _ _ _ (stepRefl ctx s) ?_
    cases el with
    | textN c => exact stepRefl ctx s
    | elemN a1 a2 a3 a4 a5 a6 a7 a8 a9 =>
      try dsimp only
      refine stepIte ctx _ _ _ _ (stepRefl ctx s) ?_
      refine stepIte ctx _ _ _ _ (stepRefl ctx s) ?_
      refine stepIte ctx _ _ _ _ (step_emitHiddenHeading ctx _ s) ?_
      refine stepIte ctx _ _ _ _ (step_handleListWith ctx _
        (fun c2 pv2 st => ih c2 _ pv2 (ld + 1) st) _ ld s) ?_
      refine stepIte ctx _ _ _ _
        (stepTrans (regStep_step (regStep_extract ctx _ s))
          (stepIte ctx _ _ _ _ (step_addLine ctx _ none _)
            (stepRefl ctx _))) ?_
      refine stepIte ctx _ _ _ _
        (stepTrans (regStep_step (regStep_extract ctx _ s))
          (stepIte ctx _ _ _ _ (step_addLine ctx _ none _)
            (stepRefl ctx _))) ?_
      refine stepIte ctx _ _ _ _ (step_walkFigurePart ctx _ s) ?_
      refine stepIte ctx _ _ _ _
        (stepTrans (step_srcRegister ctx _ s) (step_addLine ctx _ _ _)) ?_
      refine stepIte ctx _ _ _ _
        (stepTrans (step_srcRegister ctx _ s) (step_addLine ctx _ _ _)) ?_
      refine stepIte ctx _ _ _ _ (step_walkLiPart ctx _
        (fun c2 pv2 st => ih c2 _ pv2 (ld + 1) st) _ ld s) ?_
      cases hg : (extractFilterGroup ctx
          (Node.elemN a1 a2 a3 a4 a5 a6 a7 a8 a9) pv s).1 with
      | some g =>
        try dsimp only
        refine stepTrans (regStep_step (regStep_extractFilterGroup ctx
          (Node.elemN a1 a2 a3 a4 a5 a6 a7 a8 a9) pv s)) ?_
        refine stepIte ctx _ _ _ _
          (stepIte ctx _ _ _ _ (step_addLine ctx _ none _) (stepRefl ctx _))
          (step_walkRestPart ctx _
            (fun c2 pv2 st => ih c2 _ pv2 ld st) _ _ ld _)
      | none =>
        try dsimp only
        exact stepTrans (regStep_step (regStep_extractFilterGroup ctx
            (Node.elemN a1 a2 a3 a4 a5 a6 a7 a8 a9) pv s))
          (step_walkRestPart ctx _
            (fun c2 pv2 st => ih c2 _ pv2 ld st) _ _ ld _)

/-! ## Step propagation through the pipeline phases -/

/-- Reflexivity of emit-field equality. -/
theorem emitEqRefl (s : St) : EmitEq s s :=
  ⟨rfl, rfl, rfl, rfl, rfl, rfl, rfl, rfl⟩

/-- Branching combinator for emit-field equality. -/
theorem emitEqIte (c : Prop) [Decidable c] (s a b : St)
    (h1 : EmitEq s a) (h2 : EmitEq s b) : EmitEq s (if c then a else b) := by
  split
  · exact h1
  · exact h2

/-- Changing only the shell/walk mode fields is a step. -/
theorem step_modes (ctx : Ctx) (s : St) (sm : Bool) (sr : Nat) (wm : WalkMode) :
    Step ctx s
      { s with shellMode := sm, shellRemaining := sr, walkMode := wm } :=
  ⟨listGrows_refl _, fun _ hl => Or.inl hl, listGrows_refl _, listGrows_refl _,
   id, id⟩

/-- Walking one root from its document position is a step. -/
theorem step_walkRoot (ctx : Ctx) (doc root : Node) (s : St) :
    Step ctx s (walkRoot ctx doc root s) := by
  unfold walkRoot
  cases h : findNodeCtx doc root.nid with
  | some p =>
    obtain ⟨anc, pv⟩ := p
    try dsimp only
    exact step_walkF ctx _ root anc pv 0 s
  | none =>
    try dsimp only
    exact step_walkF ctx _ root [] none 0 s

/-- The shell pass is a step. -/
theorem step_shellPass (ctx : Ctx) (doc : Node) (shellRoots : List Node)
    (s : St) : Step ctx s (shellPass ctx doc shellRoots s) := by
  unfold shellPass
  try dsimp only
  exact stepTrans (stepTrans (step_modes ctx s true 60 WalkMode.shellW)
    (rel_foldl (Step ctx) (stepRefl ctx) (fun ha hb => stepTrans ha hb) id _
      (fun (b : St) (a : Node) => stepIte ctx _ _ _ _ (stepRefl ctx b)
        (step_walkRoot ctx doc a b))
      shellRoots _))
    (step_modes ctx _ s.shellMode s.shellRemaining s.walkMode)

/-- The main pass is a step. -/
theorem step_mainPass (ctx : Ctx) (doc : Node) (roots : List Node) (s : St) :
    Step ctx s (mainPass ctx doc roots s) := by
  unfold mainPass
  exact stepTrans (step_modes ctx s s.shellMode s.shellRemaining WalkMode.mainW)
    (rel_foldl (Step ctx) (stepRefl ctx) (fun ha hb => stepTrans ha hb) id _
      (fun (b : St) (a : Node) => step_walkRoot ctx doc a b) roots _)

/-- Registering every non-empty anchor href of a list is a step. -/
theorem step_anchorsFold (ctx : Ctx) (anchors : List Node) (s : St) :
    Step ctx s (anchors.foldl (fun st anchor =>
      let href := anchorHref anchor
      if href ≠ "" then (registerLink href st).2 else st) s) :=
  rel_foldl (Step ctx) (stepRefl ctx) (fun ha hb => stepTrans ha hb) id _
    (fun (b : St) (a : Node) => stepIte ctx _ _ _ _
      (regStep_step (regStep_registerLink (anchorHref a) b)) (stepRefl ctx b))
    anchors s

/-- The main anchor sweep is a step. -/
theorem step_sweepLinks (ctx : Ctx) (roots : List Node) (s : St) :
    Step ctx s (sweepLinks ctx roots s) := by
  unfold sweepLinks
  split
  · exact rel_foldl (Step ctx) (stepRefl ctx) (fun ha hb => stepTrans ha hb)
      id _
      (fun (b : St) (a : Node) => step_anchorsFold ctx (qsa a selAnchorHref) b)
      roots s
  · exact stepRefl ctx s

/-- The capped shell anchor sweep is a step. -/
theorem step_sweepShellLinks (ctx : Ctx) (shellRoots : List Node) (s : St) :
    Step ctx s (sweepShellLinks ctx shellRoots s) := by
  unfold sweepShellLinks
  split
  · try dsimp only
    exact rel_foldl (Step ctx) (stepRefl ctx) (fun ha hb => stepTrans ha hb)
      id _
      (fun (b : St) (a : Node) => stepIte ctx _ _ _ _ (stepRefl ctx b)
        (rel_foldl (Step ctx) (stepRefl ctx) (fun ha hb => stepTrans ha hb)
          id _
          (fun (b2 : St) (a2 : Node) => stepIte ctx _ _ _ _ (stepRefl ctx b2)
            (stepIte ctx _ _ _ _
              (regStep_step (regStep_registerLink (anchorHref a2) b2))
              (stepRefl ctx b2)))
          (qsa a selAnchorHref) b))
      shellRoots s
  · exact stepRefl ctx s

/-- One fallback node emission is a step. -/
theorem step_addNodeLine (ctx : Ctx) (node : Node) (s : St) :
    Step ctx s (addNodeLine ctx node s) := by
  unfold addNodeLine
  try dsimp only
  refine stepIte ctx _ _ _ _ ?p1 (stepIte ctx _ _ _ _ ?p2
    (stepIte ctx _ _ _ _ ?p3 (stepIte ctx _ _ _ _ ?p4
      (stepIte ctx _ _ _ _ ?p5 (stepRefl ctx s)))))
  all_goals
    exact stepTrans (regStep_step (regStep_extract ctx node s))
      (stepIte ctx _ _ _ _ (step_addLine ctx _ none _) (stepRefl ctx _))

/-- The fallback node loop is a step. -/
theorem step_fallbackNodesLoop (ctx : Ctx) :
    ∀ (l : List Node) (s : St), Step ctx s (fallbackNodesLoop ctx l s)
  | [], s => stepRefl ctx s
  | node :: rest, s => by
    unfold fallbackNodesLoop
    try dsimp only
    exact stepIte ctx _ _ _ _ (step_addNodeLine ctx node s)
      (stepTrans (step_addNodeLine ctx node s)
        (step_fallbackNodesLoop ctx rest _))

/-- Emitting the long text segments of a root is a step. -/
theorem step_segmentsFold (ctx : Ctx) (segs : List String) (s : St) :
    Step ctx s (segs.foldl (fun st seg =>
      if countWsTokens seg ≥ 4 then addLine ctx seg none st else st) s) :=
  rel_foldl (Step ctx) (stepRefl ctx) (fun ha hb => stepTrans ha hb) id _
    (fun (b : St) (a : String) => stepIte ctx _ _ _ _
      (step_addLine ctx a none b) (stepRefl ctx b)) segs s

/-- The low-yield fallback pass is a step. -/
theorem step_fallbackPhase (ctx : Ctx) (roots : List Node) (s : St) :
    Step ctx s (fallbackPhase ctx roots s) := by
  unfold fallbackPhase
  try dsimp only
  split
  · exact rel_foldl (Step ctx) (stepRefl ctx) (fun ha hb => stepTrans ha hb)
      id _
      (fun (b : St) (a : Node) => stepIte ctx _ _ _ _
        (stepTrans (step_fallbackNodesLoop ctx _ b) (step_segmentsFold ctx _ _))
        (step_fallbackNodesLoop ctx _ b))
      roots s
  · exact stepRefl ctx s

/-- The link-table loop is a step. -/
theorem step_linkTableLoop (ctx : Ctx) :
    ∀ (l : List LinkEntry) (s : St), Step ctx s (linkTableLoop ctx l s)
  | [], s => stepRefl ctx s
  | e :: rest, s => by
    unfold linkTableLoop
    try dsimp only
    exact stepIte ctx _ _ _ _ (step_addLine ctx _ none s)
      (stepTrans (step_addLine ctx _ none s) (step_linkTableLoop ctx rest _))

/-- The link-table phase is a step. -/
theorem step_linkTablePhase (ctx : Ctx) (s : St) :
    Step ctx s (linkTablePhase ctx s) := by
  unfold linkTablePhase
  split
  · exact stepTrans (step_addLine ctx _ none s) (step_linkTableLoop ctx _ _)
  · exact stepRefl ctx s

/-- The whole pipeline, from the initial state, is a step under its own
resolved configuration. -/
theorem step_runPipeline (env : Env) (o : ReadableOptions) :
    Step (runPipeline env o).1 initSt (runPipeline env o).2 := by
  unfold runPipeline
  cases hd : env.doc with
  | none =>
    try dsimp only
    exact stepTrans
      (step_modes _ initSt initSt.shellMode initSt.shellRemaining
        WalkMode.mainW)
      (stepTrans (step_sweepLinks _ _ _) (stepTrans (step_sweepShellLinks _ _ _)
        (stepTrans (step_fallbackPhase _ _ _) (step_linkTablePhase _ _))))
  | some doc =>
    try dsimp only
    exact stepTrans
      (stepIte _ _ _ _ _ (step_shellPass _ doc _ initSt) (stepRefl _ initSt))
      (stepTrans (step_mainPass _ doc _ _)
        (stepTrans (step_sweepLinks _ _ _)
          (stepTrans (step_sweepShellLinks _ _ _)
            (stepTrans (step_fallbackPhase _ _ _) (step_linkTablePhase _ _)))))

/-- The initial state satisfies the budget invariant. -/
theorem budgetInv_init (ctx : Ctx) : budgetInv ctx initSt := by
  unfold budgetInv
  cases ctx.maxItems with
  | none => rfl
  | some m => exact ⟨Nat.zero_le m, fun h => absurd h (by decide)⟩

/-- The initial state satisfies the registry invariant. -/
theorem linkWF_init : linkWF initSt := ⟨rfl, rfl, rfl⟩

/-! ## Stability after truncation -/

/-- Transitivity of emit-field equality. -/
theorem emitEqTrans {a b c : St} (h1 : EmitEq a b) (h2 : EmitEq b c) :
    EmitEq a c := by
  obtain ⟨e1, e2, e3, e4, e5, e6, e7, e8⟩ := h1
  obtain ⟨f1, f2, f3, f4, f5, f6, f7, f8⟩ := h2
  exact ⟨f1.trans e1, f2.trans e2, f3.trans e3, f4.trans e4, f5.trans e5,
    f6.trans e6, f7.trans e7, f8.trans e8⟩

/-- Once truncated, the walk returns its state unchanged. -/
theorem walkF_truncated (ctx : Ctx) (gas : Nat) (el : Node) (anc : List Node)
    (pv : Option Node) (ld : Nat) (s : St) (h : s.truncated = true) :
    walkF ctx gas el anc pv ld s = s := by
  rw [walkF.eq_def]
  try dsimp only
  rw [if_pos h]

/-- Once truncated, the link-table phase is the identity. -/
theorem linkTablePhase_truncated (ctx : Ctx) (s : St)
    (h : s.truncated = true) : linkTablePhase ctx s = s := by
  unfold linkTablePhase
  split
  · next hc => exfalso; simp [h] at hc
  · rfl

/-- A link-table phase over an empty registry is the identity. -/
theorem linkTablePhase_nilLinks (ctx : Ctx) (s : St) (h : s.linkList = []) :
    linkTablePhase ctx s = s := by
  unfold linkTablePhase
  split
  · next hc => exfalso; simp [h] at hc
  · rfl

/-- A guarded emission into a truncated state changes no emit field. -/
theorem emitEq_iteAddLine (ctx : Ctx) (c : Prop) [Decidable c] (L : String)
    (r : Option String) (s t : St) (he : EmitEq s t) (h : t.truncated = true) :
    EmitEq s (if c then addLine ctx L r t else t) := by
  rw [addLine_truncated ctx L r t h]
  split
  · exact he
  · exact he

/-- Once truncated, the fallback node emitter changes no emit field. -/
theorem addNodeLine_truncated (ctx : Ctx) (node : Node) (s : St)
    (h : s.truncated = true) : EmitEq s (addNodeLine ctx node s) := by
  unfold addNodeLine
  try dsimp only
  have hr : RegStep s (extractInlineText ctx node s).2 :=
    regStep_extract ctx node s
  have ht : (extractInlineText ctx node s).2.truncated = true := by
    rw [hr.1.2.2.1, h]
  exact emitEqIte _ _ _ _ (emitEq_iteAddLine ctx _ _ _ _ _ hr.1 ht)
    (emitEqIte _ _ _ _ (emitEq_iteAddLine ctx _ _ _ _ _ hr.1 ht)
      (emitEqIte _ _ _ _ (emitEq_iteAddLine ctx _ _ _ _ _ hr.1 ht)
        (emitEqIte _ _ _ _ (emitEq_iteAddLine ctx _ _ _ _ _ hr.1 ht)
          (emitEqIte _ _ _ _ (emitEq_iteAddLine ctx _ _ _ _ _ hr.1 ht)
            (emitEqRefl s)))))

/-- Once truncated, the fallback node loop changes no emit field. -/
theorem fallbackNodesLoop_truncated (ctx : Ctx) :
    ∀ (l : List Node) (s : St), s.truncated = true →
      EmitEq s (fallbackNodesLoop ctx l s)
  | [], s, _ => emitEqRefl s
  | node :: rest, s, h => by
    unfold fallbackNodesLoop
    try dsimp only
    have h1 := addNodeLine_truncated ctx node s h
    have ht : (addNodeLine ctx node s).truncated = true := by
      rw [h1.2.2.1, h]
    exact emitEqIte _ _ _ _ h1
      (emitEqTrans h1 (fallbackNodesLoop_truncated ctx rest _ ht))

/-- Once truncated, the fallback pass changes no emit field — in particular
it appends no line. -/
theorem fallbackPhase_truncated (ctx : Ctx) (roots : List Node) (s : St)
    (h : s.truncated = true) : EmitEq s (fallbackPhase ctx roots s) := by
  unfold fallbackPhase
  try dsimp only
  split
  · refine ((rel_foldl
      (fun a b => a.truncated = true → EmitEq a b ∧ b.truncated = true)
      (fun t ht => ⟨emitEqRefl t, ht⟩)
      (fun hab hbc ha => ⟨emitEqTrans (hab ha).1 (hbc (hab ha).2).1,
        (hbc (hab ha).2).2⟩)
      id _ ?hf roots s) h).1
    case hf =>
      intro b a hb
      have hb' : b.truncated = true := hb
      have he1 := fallbackNodesLoop_truncated ctx (qsa a selFallbackTags) b hb'
      have ht1 : (fallbackNodesLoop ctx (qsa a selFallbackTags) b).truncated
          = true := by rw [he1.2.2.1, hb']
      constructor
      · split
        · next hcnd => rw [ht1] at hcnd; exact absurd hcnd (by simp)
        · exact he1
      · split
        · next hcnd => rw [ht1] at hcnd; exact absurd hcnd (by simp)
        · exact ht1
  · exact emitEqRefl s

/-- Without truncation and with the budget unexhausted, `addLine` leaves the
truncation flag down. -/
theorem addLine_keeps_flag (ctx : Ctx) (line : String) (ref : Option String)
    (s : St) (htr : s.truncated = false)
    (hbud : itemBudgetReached ctx.maxItems s.itemCount = false) :
    (addLine ctx line ref s).truncated = false := by
  unfold addLine
  try dsimp only
  rw [if_neg (by simp [htr])]
  split
  · exact htr
  split
  · exact htr
  split
  · exact htr
  rw [if_neg (by simp [hbud])]
  split
  · split
    · split
      · exact htr
      · exact htr
    · exact htr
  · exact htr

/-- The item-budget check is the only path that raises the truncation flag,
and the raising transition appends nothing. -/
theorem addLine_only_budget (ctx : Ctx) (line : String) (ref : Option String)
    (s : St) (htr : s.truncated = false)
    (hset : (addLine ctx line ref s).truncated = true) :
    itemBudgetReached ctx.maxItems s.itemCount = true ∧
      addLine ctx line ref s = { s with truncated := true } := by
  by_cases hsh : (s.shellMode && s.shellRemaining == 0) = true
  · have heq : addLine ctx line ref s = s := by
      unfold addLine
      simp only [htr, Bool.false_eq_true, if_false]
      rw [if_pos hsh]
    rw [heq] at hset
    simp [htr] at hset
  have hsh' : (s.shellMode && s.shellRemaining == 0) = false := by
    simpa using hsh
  by_cases hne : normalizeBullets (cleanText line) = ""
  · rw [addLine_empty ctx line ref s hne] at hset
    simp [htr] at hset
  by_cases hded : (ctx.dedupeEnabled &&
      !strStartsWith (normalizeBullets (cleanText line)) "#" &&
      s.fingerprintSet.contains
        (fingerprintLine (normalizeBullets (cleanText line)))) = true
  · have hded2 := hded
    simp only [Bool.and_eq_true, Bool.not_eq_true'] at hded2
    rw [addLine_dedup_drop ctx line ref s htr hded2.1.1 hded2.1.2
      hded2.2] at hset
    simp [htr] at hset
  have hded' : (ctx.dedupeEnabled &&
      !strStartsWith (normalizeBullets (cleanText line)) "#" &&
      s.fingerprintSet.contains
        (fingerprintLine (normalizeBullets (cleanText line)))) = false := by
    simpa using hded
  by_cases hbud : itemBudgetReached ctx.maxItems s.itemCount = true
  · exact ⟨hbud, addLine_sets_truncated ctx line ref s htr hsh' hne hded' hbud⟩
  · have hbud' : itemBudgetReached ctx.maxItems s.itemCount = false := by
      simpa using hbud
    rw [addLine_keeps_flag ctx line ref s htr hbud'] at hset
    exact absurd hset (by decide)

/-- A candidate whose cleaned text is a heading is appended regardless of
the fingerprint state. -/
theorem addLine_heading_push (ctx : Ctx) (line : String) (ref : Option String)
    (s : St) (htr : s.truncated = false)
    (hsh : (s.shellMode && s.shellRemaining == 0) = false)
    (hne : normalizeBullets (cleanText line) ≠ "")
    (hhead : strStartsWith (normalizeBullets (cleanText line)) "#" = true)
    (hbud : itemBudgetReached ctx.maxItems s.itemCount = false) :
    (addLine ctx line ref s).lines = s.lines ++
      [trimLine ctx.maxLineLength
        (decorateLine (normalizeBullets (cleanText line)) ref)] := by
  have hded' : (ctx.dedupeEnabled &&
      !strStartsWith (normalizeBullets (cleanText line)) "#" &&
      s.fingerprintSet.contains
        (fingerprintLine (normalizeBullets (cleanText line)))) = false := by
    simp [hhead]
  rw [addLine_push ctx line ref s htr hsh hne hded' hbud]
  try dsimp only
  split
  · split
    · split
      · rfl
      · rfl
    · rfl
  · rfl

/-- A heading candidate inserts its fingerprint into the window. -/
theorem addLine_heading_window (ctx : Ctx) (line : String)
    (ref : Option String) (s : St) (htr : s.truncated = false)
    (hsh : (s.shellMode && s.shellRemaining == 0) = false)
    (hne : normalizeBullets (cleanText line) ≠ "")
    (hhead : strStartsWith (normalizeBullets (cleanText line)) "#" = true)
    (hbud : itemBudgetReached ctx.maxItems s.itemCount = false)
    (hded : ctx.dedupeEnabled = true) (hw : 1 ≤ ctx.dedupeWindow) :
    fingerprintLine (normalizeBullets (cleanText line)) ∈
      (addLine ctx line ref s).fingerprintWindow := by
  have hded' : (ctx.dedupeEnabled &&
      !strStartsWith (normalizeBullets (cleanText line)) "#" &&
      s.fingerprintSet.contains
        (fingerprintLine (normalizeBullets (cleanText line)))) = false := by
    simp [hhead]
  rw [addLine_push ctx line ref s htr hsh hne hded' hbud]
  try dsimp only
  rw [if_pos hded]
  cases hfpw : s.fingerprintWindow with
  | nil =>
    simp only [hfpw, List.nil_append]
    rw [if_neg (by simp; omega)]
    simp
  | cons a tl =>
    simp only [hfpw, List.cons_append]
    split
    · try dsimp only
      simp
    · simp

/-- The fingerprint window never grows beyond the configured capacity. -/
theorem addLine_window_bound (ctx : Ctx) (line : String) (ref : Option String)
    (s : St) (hwin : s.fingerprintWindow.length ≤ ctx.dedupeWindow) :
    (addLine ctx line ref s).fingerprintWindow.length ≤ ctx.dedupeWindow := by
  by_cases htr : s.truncated = true
  · rw [addLine_truncated ctx line ref s htr]; exact hwin
  have htr' : s.truncated = false := by simpa using htr
  by_cases hsh : (s.shellMode && s.shellRemaining == 0) = true
  · have heq : addLine ctx line ref s = s := by
      unfold addLine
      simp only [htr', Bool.false_eq_true, if_false]
      rw [if_pos hsh]
    rw [heq]; exact hwin
  have hsh' : (s.shellMode && s.shellRemaining == 0) = false := by
    simpa using hsh
  by_cases hne : normalizeBullets (cleanText line) = ""
  · rw [addLine_empty ctx line ref s hne]; exact hwin
  by_cases hded : (ctx.dedupeEnabled &&
      !strStartsWith (normalizeBullets (cleanText line)) "#" &&
      s.fingerprintSet.contains
        (fingerprintLine (normalizeBullets (cleanText line)))) = true
  · have hded2 := hded
    simp only [Bool.and_eq_true, Bool.not_eq_true'] at hded2
    rw [addLine_dedup_drop ctx line ref s htr' hded2.1.1 hded2.1.2 hded2.2]
    exact hwin
  have hded' : (ctx.dedupeEnabled &&
      !strStartsWith (normalizeBullets (cleanText line)) "#" &&
      s.fingerprintSet.contains
        (fingerprintLine (normalizeBullets (cleanText line)))) = false := by
    simpa using hded
  by_cases hbud : itemBudgetReached ctx.maxItems s.itemCount = true
  · rw [addLine_sets_truncated ctx line ref s htr' hsh' hne hded' hbud]
    exact hwin
  · have hbud' : itemBudgetReached ctx.maxItems s.itemCount = false := by
      simpa using hbud
    rw [addLine_push ctx line ref s htr' hsh' hne hded' hbud']
    try dsimp only
    split
    · split
      · next hover =>
        split
        · next heq2 => simp
        · next removed rest heq2 =>
          have hlen := congrArg List.length heq2
          simp at hlen hover ⊢
          omega
      · next hover =>
        simp at hover ⊢
        omega
    · exact hwin

/-! ## Helper identities for the degenerate run -/

/-- The anchor sweep over no roots is the identity. -/
theorem sweepLinks_nil (ctx : Ctx) (s : St) : sweepLinks ctx [] s = s := by
  unfold sweepLinks
  split
  · rfl
  · rfl

/-- The shell anchor sweep over no roots is the identity. -/
theorem sweepShellLinks_nil (ctx : Ctx) (s : St) :
    sweepShellLinks ctx [] s = s := by
  unfold sweepShellLinks
  split
  · rfl
  · rfl

/-- The fallback pass over no roots is the identity. -/
theorem fallbackPhase_nil (ctx : Ctx) (s : St) : fallbackPhase ctx [] s = s := by
  unfold fallbackPhase
  try dsimp only
  split
  · rfl
  · rfl

/-- A looked-up key survives any extension of the map. -/
theorem lookupGrows {k : String} {l1 l2 : List (String × String)} {r : String}
    (hg : listGrows l1 l2) (h : l1.lookup k = some r) : l2.lookup k = some r := by
  obtain ⟨ext, rfl⟩ := hg
  rw [lookupAppend, h]

/-- A URL whose registration returned a reference keeps returning that very
reference after any amount of further pipeline work (every phase is a
`Step`), with the state unchanged. -/
theorem registerLink_reuse (ctx : Ctx) (u : String) (s t : St)
    (hst : Step ctx (registerLink u s).2 t)
    (hsome : (registerLink u s).1 ≠ none) :
    registerLink u t = ((registerLink u s).1, t) := by
  have hgrow : listGrows (registerLink u s).2.linkMap t.linkMap := hst.2.2.2.1
  by_cases hrej : (decide (jsTrim u = "") ||
      strStartsWith (jsTrim u) "javascript:" || strStartsWith (jsTrim u) "#" ||
      strStartsWith (jsTrim u) "data:" ||
      strStartsWith (jsTrim u) "blob:") = true
  · exfalso
    have h1 : registerLink u s = (none, s) := by
      unfold registerLink
      dsimp only
      rw [if_pos hrej]
    rw [h1] at hsome
    exact hsome rfl
  cases hlook : s.linkMap.lookup (jsTrim u) with
  | some r =>
    have h1 : registerLink u s = (some ("@" ++ r), s) := by
      unfold registerLink
      dsimp only
      rw [if_neg hrej, hlook]
    rw [h1] at hgrow
    have hlt : t.linkMap.lookup (jsTrim u) = some r := lookupGrows hgrow hlook
    rw [h1]
    unfold registerLink
    dsimp only
    rw [if_neg hrej, hlt]
  | none =>
    have h1 : registerLink u s =
        (some ("@" ++ ("L" ++ toString (s.linkCounter + 1))),
         { s with
           linkCounter := s.linkCounter + 1,
           linkMap := s.linkMap ++
             [(jsTrim u, "L" ++ toString (s.linkCounter + 1))],
           linkList := s.linkList ++
             [⟨"L" ++ toString (s.linkCounter + 1), jsTrim u⟩] }) := by
      unfold registerLink
      dsimp only
      rw [if_neg hrej, hlook]
    rw [h1] at hgrow
    have hbase : ((s.linkMap ++
        [(jsTrim u, "L" ++ toString (s.linkCounter + 1))]).lookup
          (jsTrim u)) = some ("L" ++ toString (s.linkCounter + 1)) := by
      rw [lookupAppend, hlook]
      simp [List.lookup]
    have hlt : t.linkMap.lookup (jsTrim u) =
        some ("L" ++ toString (s.linkCounter + 1)) := lookupGrows hgrow hbase
    rw [h1]
    unfold registerLink
    dsimp only
    rw [if_neg hrej, hlt]

/-! ## The claims -/

/-- C1: the emitted item count never exceeds the configured `maxItems` (and
an unset cap never truncates); once `truncated` is set, `addLine`, the
walk, the fallback pass and the link-table phase append nothing; and the
item-budget check is the only path that raises the flag, doing so without
appending the candidate line. -/
theorem C1_item_budget_and_truncation :
    (∀ (env : Env) (o : ReadableOptions) (M : Nat),
      (runPipeline env o).1.maxItems = some M →
        (runPipeline env o).2.itemCount ≤ M) ∧
    (∀ (env : Env) (o : ReadableOptions),
      (runPipeline env o).1.maxItems = none →
        (runPipeline env o).2.truncated = false) ∧
    (∀ (ctx : Ctx) (line : String) (ref : Option String) (s : St),
      s.truncated = true → addLine ctx line ref s = s) ∧
    (∀ (ctx : Ctx) (gas : Nat) (el : Node) (anc : List Node)
      (pv : Option Node) (ld : Nat) (s : St),
      s.truncated = true → walkF ctx gas el anc pv ld s = s) ∧
    (∀ (ctx : Ctx) (roots : List Node) (s : St),
      s.truncated = true → (fallbackPhase ctx roots s).lines = s.lines) ∧
    (∀ (ctx : Ctx) (s : St),
      s.truncated = true → linkTablePhase ctx s = s) ∧
    (∀ (ctx : Ctx) (line : String) (ref : Option String) (s : St),
      s.truncated = false → (addLine ctx line ref s).truncated = true →
        itemBudgetReached ctx.maxItems s.itemCount = true ∧
        addLine ctx line ref s = { s with truncated := true }) := by
  refine ⟨?_, ?_, addLine_truncated, walkF_truncated, ?_,
    linkTablePhase_truncated, addLine_only_budget⟩
  · intro env o M hM
    have h := (step_runPipeline env o).2.2.2.2.2 (budgetInv_init _)
    unfold budgetInv at h
    rw [hM] at h
    exact h.1
  · intro env o hM
    have h := (step_runPipeline env o).2.2.2.2.2 (budgetInv_init _)
    unfold budgetInv at h
    rw [hM] at h
    exact h
  · intro ctx roots s h
    exact (fallbackPhase_truncated ctx roots s h).1

/-- C1 witness: a run that truncates at `maxItems = 1` keeps its item count
at 1, and an `addLine` into a truncated state is the identity. -/
theorem C1_item_budget_and_truncation_witness :
    (runPipeline ⟨some c10doc, true⟩ { maxItems := some 1 }).2.itemCount
        ≤ 1 ∧
    addLine tctx "hello" none { initSt with truncated := true } =
      { initSt with truncated := true } :=
  ⟨C1_item_budget_and_truncation.1 ⟨some c10doc, true⟩ { maxItems := some 1 }
      1 (by decide),
   C1_item_budget_and_truncation.2.2.1 tctx "hello" none
      { initSt with truncated := true } (by decide)⟩

/-- C2 counterexample: with configured `maxLineLength = 10` the output
contains a 19-character line — the resolved limit is clamped to at least
40, so the configured bound is not honoured. -/
theorem C2_line_length_cex :
    (runPipeline ⟨some c2doc, true⟩
        { maxLineLength := some 10 }).2.lines = ["aaaa bbbb cccc dddd"] ∧
    slen "aaaa bbbb cccc dddd" = 19 := by decide

/-- C2 (amended): every output line satisfies the bound induced by the
resolved `maxLineLength` of the run (configured value clamped to at least
40, possibly widened to 360 at article selection); a disabled limit never
rewrites a line; a shortened line ends in exactly one ellipsis character,
placed after trailing whitespace was trimmed. -/
theorem C2_line_length :
    (∀ (env : Env) (o : ReadableOptions) (l : String),
      l ∈ (runPipeline env o).2.lines → lineOk (runPipeline env o).1 l) ∧
    (∀ (m : Nat) (t : String), slen (trimLine (some m) t) ≤ max 1 m) ∧
    (∀ t : String, trimLine none t = t) ∧
    (∀ (m : Nat) (t : String), ¬ slen t ≤ m →
      (trimLine (some m) t).toList.getLast? = some '…') ∧
    (∀ (m : Nat) (t : String), ¬ slen t ≤ m → ∀ c : Char,
      (trimLine (some m) t).toList.dropLast.getLast? = some c →
      jsIsWs c = false) := by
  refine ⟨?_, trimLine_le, trimLine_disabled, trimLine_long_ellipsis, ?_⟩
  · intro env o l hl
    rcases (step_runPipeline env o).2.1 l hl with hmem | hok
    · exact absurd hmem (List.not_mem_nil l)
    · exact hok
  · intro m t h c hc
    exact trimLine_long_trimmed m t h c hc

/-- C2 witness: the 19-character line satisfies the resolved bound of its
run, and a trimmed line ends in the ellipsis. -/
theorem C2_line_length_witness :
    lineOk (runPipeline ⟨some c2doc, true⟩ { maxLineLength := some 10 }).1
        "aaaa bbbb cccc dddd" ∧
    (trimLine (some 5) "abcdefgh").toList.getLast? = some '…' :=
  ⟨C2_line_length.1 ⟨some c2doc, true⟩ { maxLineLength := some 10 }
      "aaaa bbbb cccc dddd" (by decide),
   C2_line_length.2.2.2.1 5 "abcdefgh" (by decide)⟩

/-- C3 counterexample: the spec's predicted line is not emitted for the
widget — the `+2 more` pseudo-item does not match the bare `+N` folding
pattern, and the group line carries a `- ` prefix. -/
theorem C3_filter_group_cex :
    "Color: Red, Green, Blue, Yellow (+2 more)" ∉
      (runPipeline ⟨some c3doc, true⟩ c3opts).2.lines := by decide

/-- C3 (amended): the compact run over the widget emits the label line and
the group line `- Color: Red, Green, Blue, Yellow, +2 more` with the
pseudo-item displayed verbatim; only a bare `+N` label folds into the
counted remainder, as the `c3docB` variant shows. -/
theorem C3_filter_group_output :
    (runPipeline ⟨some c3doc, true⟩ c3opts).2.lines =
      ["Color", "- Color: Red, Green, Blue, Yellow, +2 more"] ∧
    (runPipeline ⟨some c3docB, true⟩ c3opts).2.lines =
      ["Color", "- Color: Red, Green, Blue, Yellow (+2 more)"] := by decide

/-- C4 counterexample: a heading inserts its fingerprint into the window
and thereby suppresses a later identical-fingerprint non-heading line. -/
theorem C4_heading_dedup_cex :
    (addLine tctx "# A" none initSt).fingerprintWindow = ["# a"] ∧
    (addLine tctx "·# a" none (addLine tctx "# A" none initSt)).lines =
      ["# A"] := by decide

/-- C4 (amended): heading candidates are exempt from suppression — they are
appended regardless of the fingerprint state — but, contrary to the spec,
their fingerprints are inserted into the window like any emitted line. -/
theorem C4_heading_dedup :
    (∀ (ctx : Ctx) (line : String) (ref : Option String) (s : St),
      s.truncated = false →
      (s.shellMode && s.shellRemaining == 0) = false →
      normalizeBullets (cleanText line) ≠ "" →
      strStartsWith (normalizeBullets (cleanText line)) "#" = true →
      itemBudgetReached ctx.maxItems s.itemCount = false →
      (addLine ctx line ref s).lines = s.lines ++
        [trimLine ctx.maxLineLength
          (decorateLine (normalizeBullets (cleanText line)) ref)]) ∧
    (∀ (ctx : Ctx) (line : String) (ref : Option String) (s : St),
      s.truncated = false →
      (s.shellMode && s.shellRemaining == 0) = false →
      normalizeBullets (cleanText line) ≠ "" →
      strStartsWith (normalizeBullets (cleanText line)) "#" = true →
      itemBudgetReached ctx.maxItems s.itemCount = false →
      ctx.dedupeEnabled = true → 1 ≤ ctx.dedupeWindow →
      fingerprintLine (normalizeBullets (cleanText line)) ∈
        (addLine ctx line ref s).fingerprintWindow) :=
  ⟨addLine_heading_push, addLine_heading_window⟩

/-- C4 witness: a concrete heading is appended and its fingerprint lands in
the window. -/
theorem C4_heading_dedup_witness :
    (addLine tctx "# A" none initSt).lines = initSt.lines ++
      [trimLine tctx.maxLineLength
        (decorateLine (normalizeBullets (cleanText "# A")) none)] ∧
    fingerprintLine (normalizeBullets (cleanText "# A")) ∈
      (addLine tctx "# A" none initSt).fingerprintWindow :=
  ⟨C4_heading_dedup.1 tctx "# A" none initSt (by decide) (by decide)
      (by decide) (by decide) (by decide),
   C4_heading_dedup.2 tctx "# A" none initSt (by decide) (by decide)
      (by decide) (by decide) (by decide) (by decide) (by decide)⟩

/-- C5 counterexample: the bulleted line `·# a` is emitted twice although
its fingerprint `# a` sits in the window at every step in between — the
membership test consults the companion set, which lost the fingerprint when
an evicted duplicate (inserted by the heading) was deleted. -/
theorem C5_dedup_window_cex :
    (runLines tctxW c5seq initSt).lines.count "·# a" = 2 ∧
    ((List.range 11).all fun i =>
      (runLines tctxW (c5seq.take (i + 1))
        initSt).fingerprintWindow.contains "# a") = true := by decide

/-- C5 (amended): duplicate suppression is keyed on the membership set, not
on the window — with dedup enabled, a non-heading candidate whose
fingerprint is in the set is dropped silently — and the window length never
exceeds the resolved `dedupeWindow` capacity. -/
theorem C5_dedup_window :
    (∀ (ctx : Ctx) (line : String) (ref : Option String) (s : St),
      s.truncated = false → ctx.dedupeEnabled = true →
      strStartsWith (normalizeBullets (cleanText line)) "#" = false →
      s.fingerprintSet.contains
        (fingerprintLine (normalizeBullets (cleanText line))) = true →
      addLine ctx line ref s = s) ∧
    (∀ (ctx : Ctx) (line : String) (ref : Option String) (s : St),
      s.fingerprintWindow.length ≤ ctx.dedupeWindow →
      (addLine ctx line ref s).fingerprintWindow.length ≤
        ctx.dedupeWindow) :=
  ⟨addLine_dedup_drop, addLine_window_bound⟩

/-- C5 witness: a concrete interned duplicate is dropped, and an emission
from the empty window respects the capacity. -/
theorem C5_dedup_window_witness :
    addLine tctxW "·# a" none (runLines tctxW (c5seq.take 2) initSt) =
      runLines tctxW (c5seq.take 2) initSt ∧
    (addLine tctxW "hi" none initSt).fingerprintWindow.length ≤
      tctxW.dedupeWindow :=
  ⟨C5_dedup_window.1 tctxW "·# a" none (runLines tctxW (c5seq.take 2) initSt)
      (by decide) (by decide) (by decide) (by decide),
   C5_dedup_window.2 tctxW "hi" none initSt (by decide)⟩

/-- C6: the final registry is well-formed — references are `L1, L2, …`
assigned in first-seen order (hence strictly increasing), the counter
equals the list length, and the map mirrors the list; registering the same
URL again immediately returns the same reference without changing the
state; and a URL whose registration returned a reference keeps returning
that very reference after any amount of intervening pipeline work (every
phase and every other registration is a `Step`), again without changing
the state. -/
theorem C6_link_registry :
    (∀ (env : Env) (o : ReadableOptions), linkWF (runPipeline env o).2) ∧
    (∀ (u : String) (s : St),
      registerLink u ((registerLink u s).2) =
        ((registerLink u s).1, (registerLink u s).2)) ∧
    (∀ (ctx : Ctx) (u : String) (s t : St),
      Step ctx (registerLink u s).2 t →
      (registerLink u s).1 ≠ none →
      registerLink u t = ((registerLink u s).1, t)) :=
  ⟨fun env o => (step_runPipeline env o).2.2.2.2.1 linkWF_init,
   registerLink_idem, registerLink_reuse⟩

/-- C6 witness: `https://x` is registered, `https://y` is registered in
between, and re-registering `https://x` returns its original reference
with the state unchanged. -/
theorem C6_link_registry_witness :
    registerLink "https://x"
        (registerLink "https://y" (registerLink "https://x" initSt).2).2 =
      ((registerLink "https://x" initSt).1,
       (registerLink "https://y" (registerLink "https://x" initSt).2).2) :=
  C6_link_registry.2.2 tctx "https://x" initSt
    (registerLink "https://y" (registerLink "https://x" initSt).2).2
    (regStep_step
      (regStep_registerLink "https://y" (registerLink "https://x" initSt).2))
    (by decide)

/-- C7 counterexample: with `maxListItems = 1`, both two-item lists exceed
the cap, yet the whole output carries exactly one `… (1 more)` summary —
the second list's identically-worded summary was dedup-suppressed — and
the fallback pass then emits the capped-out items as lines anyway.  When
the two lists leave distinct remaining counts the summary texts differ and
both are emitted. -/
theorem C7_list_cap_cex :
    (runPipeline ⟨some c7doc, true⟩ { maxListItems := some 1 }).2.lines =
      ["- x", "- … (1 more)", "- z", "- y", "- w"] ∧
    ((runPipeline ⟨some c7doc, true⟩
        { maxListItems := some 1 }).2.lines.count "- … (1 more)") = 1 ∧
    (runPipeline ⟨some c7doc3, true⟩ { maxListItems := some 1 }).2.lines =
      ["- x", "- … (1 more)", "- z", "- … (2 more)", "- y", "- w", "- v"] := by
  decide

/-- C7 (amended): a list walks only its first `min(count, maxListItems)`
`li` children, and when the cap is exceeded the excess yields at most one
summary candidate `… (N more)` with the exact remaining count, submitted
through `addLine` (which may itself drop or withhold it). -/
theorem C7_list_cap (ctx : Ctx) (wc : Node → Option Node → St → St)
    (el : Node) (ld : Nat) (s : St) (K : Nat)
    (hK : ctx.maxListItems = some K) :
    min (listItemPairs el).length K ≤ K ∧
    ((listItemPairs el).length ≤ K →
      handleListWith ctx wc el ld s =
        walkItemsLoop wc (listItemPairs el) s) ∧
    ((listItemPairs el).length > K →
      handleListWith ctx wc el ld s =
          walkItemsLoop wc ((listItemPairs el).take K) s ∨
        handleListWith ctx wc el ld s =
          addLine ctx (repeatStr "  " ld ++ "- … (" ++
              toString ((listItemPairs el).length - K) ++ " more)") none
            (walkItemsLoop wc ((listItemPairs el).take K) s)) := by
  unfold handleListWith listItemPairs
  try dsimp only
  rw [hK]
  simp only [Option.getD_some]
  refine ⟨Nat.min_le_right _ _, ?_, ?_⟩
  · intro hle
    rw [Nat.min_eq_left hle, List.take_length]
    rw [if_neg (show ¬((List.filter (fun p => p.1.tag == "li")
        (childrenWithPrev el.elemChildren)).length >
        (List.filter (fun p => p.1.tag == "li")
        (childrenWithPrev el.elemChildren)).length) by omega)]
    rw [ite_self]
  · intro hgt
    have hmin : min ((childrenWithPrev el.elemChildren).filter fun p =>
        p.1.tag == "li").length K = K := by omega
    rw [hmin]
    by_cases htr2 : (walkItemsLoop wc (List.take K
        (List.filter (fun p => p.1.tag == "li")
          (childrenWithPrev el.elemChildren))) s).truncated = true
    · rw [if_pos htr2]
      exact Or.inl rfl
    · rw [if_neg htr2, if_pos hgt]
      exact Or.inr rfl

/-- C7 witness at a concrete two-item list with a one-item cap. -/
theorem C7_list_cap_witness :
    min (listItemPairs c7ul).length 1 ≤ 1 ∧
    (handleListWith tctxL (fun _ _ st => st) c7ul 0 initSt =
        walkItemsLoop (fun _ _ st => st) ((listItemPairs c7ul).take 1)
          initSt ∨
      handleListWith tctxL (fun _ _ st => st) c7ul 0 initSt =
        addLine tctxL (repeatStr "  " 0 ++ "- … (" ++
            toString ((listItemPairs c7ul).length - 1) ++ " more)") none
          (walkItemsLoop (fun _ _ st => st) ((listItemPairs c7ul).take 1)
            initSt)) :=
  ⟨(C7_list_cap tctxL (fun _ _ st => st) c7ul 0 initSt 1 (by decide)).1,
   (C7_list_cap tctxL (fun _ _ st => st) c7ul 0 initSt 1 (by decide)).2.2
     (by decide)⟩

/-- C8: with no document the call returns the degenerate result — empty
text, `truncated = false`, zero counters, empty links — with the stats
depth echoing the resolved configuration. -/
theorem C8_no_document (o : ReadableOptions) (win : Bool) :
    getReadableText ⟨none, win⟩ o =
      { text := "", truncated := false, statsLines := 0,
        statsMaxDepth := resolveMaxDepth o, statsItems := 0,
        links := [] } := by
  have hrp : runPipeline ⟨none, win⟩ o =
      (buildCtx ⟨none, win⟩ o (resolveMaxLineLength0 o) [] [],
       { initSt with walkMode := WalkMode.mainW }) := by
    unfold runPipeline
    try dsimp only
    rw [sweepLinks_nil, sweepShellLinks_nil, fallbackPhase_nil]
    rw [linkTablePhase_nilLinks _ _ rfl]
  unfold getReadableText
  rw [hrp]
  rfl

/-- C9: the dedup exemption is keyed on the emitted text — any candidate
whose cleaned text starts with `#` bypasses suppression even when its
fingerprint is already interned, so identical hashtag lines from plain
text nodes are emitted repeatedly. -/
theorem C9_hash_exemption :
    (∀ (ctx : Ctx) (line : String) (ref : Option String) (s : St),
      s.truncated = false →
      (s.shellMode && s.shellRemaining == 0) = false →
      normalizeBullets (cleanText line) ≠ "" →
      strStartsWith (normalizeBullets (cleanText line)) "#" = true →
      ctx.dedupeEnabled = true →
      s.fingerprintSet.contains
        (fingerprintLine (normalizeBullets (cleanText line))) = true →
      itemBudgetReached ctx.maxItems s.itemCount = false →
      (addLine ctx line ref s).lines = s.lines ++
        [trimLine ctx.maxLineLength
          (decorateLine (normalizeBullets (cleanText line)) ref)]) ∧
    (runPipeline ⟨some c9doc, true⟩ {}).2.lines = ["#deals", "#deals"] := by
  constructor
  · intro ctx line ref s htr hsh hne hhead _ _ hbud
    exact addLine_heading_push ctx line ref s htr hsh hne hhead hbud
  · decide

/-- C9 witness: the hashtag line is appended although its fingerprint is
already interned. -/
theorem C9_hash_exemption_witness :
    (addLine tctx "#deals" none (addLine tctx "#deals" none initSt)).lines =
      (addLine tctx "#deals" none initSt).lines ++
        [trimLine tctx.maxLineLength
          (decorateLine (normalizeBullets (cleanText "#deals")) none)] :=
  C9_hash_exemption.1 tctx "#deals" none (addLine tctx "#deals" none initSt)
    (by decide) (by decide) (by decide) (by decide) (by decide) (by decide)
    (by decide)

/-- C10: the result's `links` field is the full registry — here including a
link registered by the post-traversal sweep after truncation, whose
reference token never reaches the text because the link table was
skipped. -/
theorem C10_links_complete :
    getReadableText ⟨some c10doc, true⟩ { maxItems := some 1 } =
      { text := "hello", truncated := true, statsLines := 1,
        statsMaxDepth := 6, statsItems := 1,
        links := [⟨"L1", "https://x"⟩] } ∧
    (∀ (env : Env) (o : ReadableOptions),
      (getReadableText env o).links = (runPipeline env o).2.linkList) := by
  constructor
  · decide
  · intro env o
    unfold getReadableText
    rcases runPipeline env o with ⟨c, s⟩
    rfl

end Readable
